import Mathlib

/-!
Shallow embedding of the `structor` package (src/structor.go): a reflective
struct-field evaluator that scans struct tags, dispatches registered EL
interpreters per field, assembles an expression context, invokes the
interpreter, coerces and assigns the result back, recurses into nested
struct-typed fields and aggregates per-field errors.

Go values are modelled by the inductive `Value`; Go types by `Ty`.  Statefulness
(reflection-based in-place mutation of the root structure) is modelled by
threading the root value through the walk and addressing the current sub-struct
by a `Path` of field indices, which mirrors the fact that the Go code mutates
sub-structs through live `reflect.Value` references into the root object.
Panics are modelled by a dedicated `Res.panic` outcome; recovered panics
(inside `reflectSet`) are modelled by `Except.error` results.
-/

set_option maxRecDepth 4096

namespace Structor

mutual
/-- Go types of the fragment exercised by the package: basic kinds, pointers,
the empty interface, and named struct types.  A struct type carries its field
declarations (each a field name, its type and its raw tag string), mirroring
`reflect.Type` of a struct (field metadata lives on the type, not the
instance).  `Decls` is a bespoke list so that recursion over declarations is
structural (and hence computes definitionally). -/
inductive Ty : Type where
  | intT : Ty
  | strT : Ty
  | boolT : Ty
  | ifaceT : Ty
  | ptrT : Ty → Ty
  | structT : String → Decls → Ty
/-- A bespoke list of field declarations `(name, type, tag)`. -/
inductive Decls : Type where
  | nil : Decls
  | cons : String → Ty → String → Decls → Decls
end

/-- Field declarations as a plain list of `(name, type, tag)` triples. -/
def Decls.toList : Decls → List (String × Ty × String)
  | .nil => []
  | .cons n t g ds => (n, t, g) :: ds.toList

/-- Build `Decls` from a plain list. -/
def mkDecls : List (String × Ty × String) → Decls
  | [] => .nil
  | (n, t, g) :: ds => .cons n t g (mkDecls ds)

/-- Go runtime values.  `nil` is the untyped nil (empty `interface{}` argument
or a nil interpreter result); `ptrNil t` is a typed nil pointer `(*t)(nil)`;
`ptrV v` a non-nil pointer to `v`; `ifaceV` an interface-typed field slot
(`none` = nil interface); `structV t fs` a struct value of struct type `t`
with positional field values `fs`. -/
inductive Value : Type where
  | nil : Value
  | intV : Int → Value
  | strV : String → Value
  | boolV : Bool → Value
  | structV : Ty → List Value → Value
  | ptrV : Value → Value
  | ptrNil : Ty → Value
  | ifaceV : Option Value → Value

/-- Go type name as printed by `reflect.Type.String` / `%T` (used to build the
long field name `fmt.Sprintf("%T.%s", curr, f.name)`). -/
def tyName : Ty → String
  | .intT => "int"
  | .strT => "string"
  | .boolT => "bool"
  | .ifaceT => "interface \x7b\x7d"
  | .ptrT t => "*" ++ tyName t
  | .structT n _ => n

mutual
/-- Model of `reflect.Zero(t)`: the zero value of a type (`zeroFields` handles the
field declarations of a struct type). -/
def zeroVal : Ty → Value
  | .intT => .intV 0
  | .strT => .strV ""
  | .boolT => .boolV false
  | .ifaceT => .ifaceV none
  | .ptrT t => .ptrNil t
  | .structT n decls => .structV (.structT n decls) (zeroFields decls)
/-- Zero values of a declaration list. -/
def zeroFields : Decls → List Value
  | .nil => []
  | .cons _ t _ ds => zeroVal t :: zeroFields ds
end

/-- The dynamic type of a value, as `reflect.ValueOf(v).Type()` would report it
(`none` for the invalid/nil case, where `Type()` panics). -/
def typeOf : Value → Option Ty
  | .nil => none
  | .intV _ => some .intT
  | .strV _ => some .strT
  | .boolV _ => some .boolT
  | .structV t _ => some t
  | .ptrV e => (typeOf e).map Ty.ptrT
  | .ptrNil t => some (.ptrT t)
  | .ifaceV _ => some .ifaceT

/-- Name of the `reflect.Kind` of a value (only used in error text). -/
def kindName : Value → String
  | .nil => "invalid"
  | .intV _ => "int"
  | .strV _ => "string"
  | .boolV _ => "bool"
  | .structV _ _ => "struct"
  | .ptrV _ => "ptr"
  | .ptrNil _ => "ptr"
  | .ifaceV _ => "interface"

/-- Passing (or reading) a value as `interface{}`: an interface-typed slot
flattens to its dynamic content (`reflect.Value.Interface`). -/
def interfaceOf : Value → Value
  | .ifaceV none => .nil
  | .ifaceV (some e) => e
  | v => v

/-- Rendering of `%T` for a value held in an `interface{}` argument. -/
def typeName (v : Value) : String :=
  match typeOf (interfaceOf v) with
  | some t => tyName t
  | none => "<nil>"

/-- Crude `%v` rendering, used only inside the root-argument error message
(struct field printing elided; no modelled claim inspects this text). -/
def display : Value → String
  | .nil => "<nil>"
  | .intV n => toString n
  | .strV s => s
  | .boolV b => toString b
  | .structV _ _ => "\x7b...\x7d"
  | .ptrV _ => "&\x7b...\x7d"
  | .ptrNil _ => "<nil>"
  | .ifaceV _ => "\x7b...\x7d"

/-- Model of `reflect.Type.ConvertibleTo` restricted to the modelled type fragment:
identical types convert, every type converts to `interface{}`, and `int`
converts to `string` (rune conversion).  Named struct and pointer types are
identified by their printed names, which is faithful for Go named types. -/
def convertibleTo (nt vt : Ty) : Bool :=
  (match vt with | .ifaceT => true | _ => false)
    || tyName nt == tyName vt
    || ((match nt with | .intT => true | _ => false)
          && (match vt with | .strT => true | _ => false))

/-- Model of `reflect.Value.Convert`: `none` models the panic raised on a disallowed
conversion.  Conversion to `interface {}` boxes the value; `int → string` is
the Go rune conversion. -/
def convert (nv : Value) (vt : Ty) : Option Value :=
  match typeOf nv with
  | none => none
  | some nt =>
    match vt with
    | .ifaceT => some (.ifaceV (some nv))
    | _ =>
      if tyName nt = tyName vt then some nv
      else
        match nv, vt with
        | .intV n, .strT => some (.strV (String.singleton (Char.ofNat n.toNat)))
        | _, _ => none

/-- Contents stored in an interface slot when a value is assigned to it. -/
def boxIface (c : Value) : Value :=
  match c with
  | .ifaceV _ => c
  | .nil => .ifaceV none
  | _ => .ifaceV (some c)

/-- Model of `reflect.Value.Set` on a slot: requires assignability (identical type, or
an interface slot, which accepts anything).  Returns the new slot contents;
an `Except.error` models the recovered `Set` panic. -/
def setVal (slot c : Value) : Except String (Option Value) :=
  match typeOf slot with
  | none => .error "reflect: call of reflect.Value.Set on zero Value"
  | some st =>
    match st with
    | .ifaceT => .ok (some (boxIface c))
    | _ =>
      match typeOf c with
      | none => .error "reflect: call of reflect.Value.Set on zero Value"
      | some ct =>
        if tyName ct = tyName st then .ok (some c)
        else .error ("reflect.Set: value of type " ++ tyName ct ++
          " is not assignable to type " ++ tyName st)

/-- Whether a (possibly invalid) slot has struct kind: `v.Kind() == reflect.Struct`. -/
def kindIsStruct : Option Value → Bool
  | some (.structV _ _) => true
  | _ => false

/-- Model of `reflectSet(v, vt, nv)` from src/structor.go:248-271.  `v` is the
(indirected) field slot (`none` = invalid `reflect.Value`), `vt` the field's
declared type, `nv` the interpreter result.  The returned value is the new
slot contents (`none` = no assignment performed); `Except.error` models a
panic recovered by the function's `defer`:

    if nv == nil { if v.IsValid() { v.Set(reflect.Zero(vt)) }; return nil }
    vnv := reflect.ValueOf(nv)
    if !vnv.Type().ConvertibleTo(vt) && v.Kind() == reflect.Struct { return nil }
    v.Set(vnv.Convert(vt))
-/
def reflectSet (v : Option Value) (vt : Ty) (nv : Value) :
    Except String (Option Value) :=
  match nv with
  | .nil =>
    match v with
    | none => .ok none
    | some slot => setVal slot (zeroVal vt)
  | _ =>
    match typeOf nv with
    | none => .error "reflect: call of reflect.Value.Type on zero Value"
    | some nt =>
      if ¬ convertibleTo nt vt ∧ kindIsStruct v then .ok none
      else
        match convert nv vt with
        | none =>
            .error ("structor: reflect.Value.Convert: value of type " ++
              tyName nt ++ " cannot be converted to type " ++ tyName vt)
        | some c =>
          match v with
          | none => .error "reflect: call of reflect.Value.Set on zero Value"
          | some slot => setVal slot c

/-- Outcome of a call that can panic (unrecovered), return an error, or
succeed.  `panic` models an unrecovered Go panic escaping the call;
`err` a returned non-nil error. -/
inductive Res (α : Type) : Type where
  | panic : String → Res α
  | err : String → Res α
  | ok : α → Res α

/-- Model of `el.Context`: the expression context assembled per field (structor.go:148-156).
Fields keep their Go names.  The `EvalExpr` callback is omitted from the model:
it is the fixed closure `ev.evalExpr` over the evaluator's registry and no
modelled claim examines it. -/
structure Ctx where
  Name : String
  LongName : String
  Tags : List (String × String)
  Struct : Value
  Extra : Value
  Sub : Value
  Val : Value

/-- Model of `el.Interpreter`: `Execute(expr, ctx) (interface{}, error)`.
`Value.nil` models a nil result. -/
abbrev Interp := String → Ctx → Except String Value

/-- Model of `scanner.Scanner`: `Tags(tag) (map[string]string, error)`.  The returned
association list records the (runtime-chosen) iteration order of the Go map;
keys are unique. -/
abbrev Scanner := String → List (String × String) × Option String

/-- Model of the `Options` struct. -/
structure Options where
  nonMutating : Bool := false
  evalEmptyTags : Bool := false

/-- The `evaluator` struct: scanner, interpreter registry, options. -/
structure Evaluator where
  scanner : Scanner
  interpreters : List (String × Interp)
  options : Options

/-- The reserved `WholeTag` registry key (empty string). -/
def WholeTag : String := ""

/-- Model of `NewEvaluatorWithOptions` (structor.go:68-76); the `panic` on an empty
registry is modelled by `Res.panic`. -/
def NewEvaluatorWithOptions (sc : Scanner) (interps : List (String × Interp))
    (opts : Options) : Res Evaluator :=
  if interps.length = 0 then .panic "no interpreters registered"
  else .ok { scanner := sc, interpreters := interps, options := opts }

/-- Model of `NewEvaluator` (structor.go:62-66). -/
def NewEvaluator (sc : Scanner) (interps : List (String × Interp)) :
    Res Evaluator :=
  NewEvaluatorWithOptions sc interps {}

/-- Model of `NewNonmutatingEvaluator` (structor.go:98-102). -/
def NewNonmutatingEvaluator (sc : Scanner) (interps : List (String × Interp)) :
    Res Evaluator :=
  NewEvaluatorWithOptions sc interps { nonMutating := true }

/-- The `fieldDescr` struct (structor.go:204-212).  `value` is the indirected
field slot (`none` = invalid `reflect.Value`, from a nil-pointer field);
`valueAddr` is the addressability bit of that slot, part of `reflect.Value`
state in Go. -/
structure FieldDescr where
  name : String
  expr : String
  interpreter : Option Interp
  value : Option Value
  valueAddr : Bool
  typ : Ty
  tags : List (String × String)
  settable : Bool

/-- Model of `reflect.Indirect(val.Field(i))` plus the addressability of the result:
a pointee is always addressable; a nil pointer gives the invalid value; any
other field slot inherits the parent struct's addressability. -/
def indirectF (parentAddr : Bool) (fv : Value) : Option Value × Bool :=
  match fv with
  | .ptrV e => (some e, true)
  | .ptrNil _ => (none, false)
  | v => (some v, parentAddr)

/-- The dispatch loop `for k, t := range tags` (structor.go:231-238): the first
entry (in the map's iteration order, here the list order) whose key is a
registered interpreter name. -/
def scanTags (reg : List (String × Interp)) :
    List (String × String) → Option (String × String × Interp)
  | [] => none
  | (k, t) :: rest =>
    match List.lookup k reg with
    | some intr => some (k, t, intr)
    | none => scanTags reg rest

/-- Model of `fieldIntrospect` (structor.go:214-246).  Returns the field descriptor and
the scan error, if any.  `delete(tags, k)` on the Go map is modelled by
filtering the key out of the association list. -/
def fieldIntrospect (ev : Evaluator) (parentAddr : Bool)
    (decl : String × Ty × String) (fv : Value) : FieldDescr × Option String :=
  match decl with
  | (fname, fty, ftag) =>
    let iv := indirectF parentAddr fv
    let scanned := ev.scanner ftag
    let base : FieldDescr :=
      { name := fname, expr := "", interpreter := none,
        value := iv.1, valueAddr := iv.2, typ := fty,
        tags := scanned.1, settable := false }
    match scanned.2 with
    | some e => (base, some e)
    | none =>
      let stbl := match iv.1 with | some _ => iv.2 | none => false
      match scanTags ev.interpreters scanned.1 with
      | some (k, tv, intr) =>
          ({ base with
              expr := tv, interpreter := some intr, settable := stbl,
              tags := scanned.1.filter (fun p => p.1 != k) }, none)
      | none =>
        match List.lookup WholeTag ev.interpreters with
        | some intr =>
            ({ base with
                expr := ftag, interpreter := some intr, settable := stbl,
                tags := scanned.1.filter (fun p => p.1 != WholeTag) }, none)
        | none => ({ base with settable := stbl }, none)

/-- Root-argument error message (structor.go:195-198). -/
def rootErrMsg (s w : Value) : String :=
  "structor: " ++ display s ++
    " must be a struct or a pointer to struct, actually: " ++ kindName w

/-- Model of `structIntrospect` (structor.go:190-202): indirect the argument, require a
struct.  `reflect.ValueOf` on a nil interface (or `Indirect` on a nil pointer)
yields the invalid value, on which `v.Type()` panics.  Returns the struct
type, its field declarations, the field values, and the addressability of the
fields (true when reached through a pointer). -/
def structIntrospect (s : Value) :
    Res (Ty × List (String × Ty × String) × List Value × Bool) :=
  match interfaceOf s with
  | .nil => .panic "reflect: call of reflect.Value.Type on zero Value"
  | .ptrNil _ => .panic "reflect: call of reflect.Value.Type on zero Value"
  | .ptrV e =>
    match e with
    | .structV (.structT n decls) fs =>
        .ok (.structT n decls, decls.toList, fs, true)
    | w => .err (rootErrMsg s w)
  | .structV (.structT n decls) fs =>
      .ok (.structT n decls, decls.toList, fs, false)
  | w => .err (rootErrMsg s w)

/-- A path of field indices from the root argument down to a nested struct;
models a live `reflect.Value` reference into the root object. -/
abbrev Path := List Nat

/-- The struct denoted by the root argument, if any (no error bookkeeping). -/
def rootStruct (s : Value) : Option (Ty × List Value × Bool) :=
  match interfaceOf s with
  | .ptrV (.structV t fs) => some (t, fs, true)
  | .structV t fs => some (t, fs, false)
  | _ => none

/-- The nested struct the walk recurses into from a raw field value
(structor.go:171-177): the indirected slot, one level of interface unwrapping,
one further `Indirect`.  Also computes addressability: through a pointer the
target is addressable; a struct inside an interface is a copy. -/
def fieldStruct (parentAddr : Bool) (fv : Value) :
    Option (Ty × List Value × Bool) :=
  match fv with
  | .ptrV (.structV t fs) => some (t, fs, true)
  | .ifaceV (some (.ptrV (.structV t fs))) => some (t, fs, true)
  | .ifaceV (some (.structV t fs)) => some (t, fs, false)
  | .structV t fs => some (t, fs, parentAddr)
  | _ => none

/-- Navigate field steps below an already-resolved struct. -/
def descendStruct : (Ty × List Value × Bool) → Path →
    Option (Ty × List Value × Bool)
  | cur, [] => some cur
  | cur, i :: p =>
    match cur.2.1.get? i with
    | none => none
    | some fv =>
      match fieldStruct cur.2.2 fv with
      | none => none
      | some sub => descendStruct sub p

/-- Navigate a path from the root argument. -/
def getStructAt (st : Value) (p : Path) : Option (Ty × List Value × Bool) :=
  match rootStruct st with
  | none => none
  | some root => descendStruct root p

/-- Rebuild a raw field value around an update of its nested struct's fields
(the write-back counterpart of `fieldStruct`). -/
def mapFieldStruct (fv : Value) (g : List Value → List Value) : Value :=
  match fv with
  | .ptrV (.structV t fs) => .ptrV (.structV t (g fs))
  | .ifaceV (some (.ptrV (.structV t fs))) => .ifaceV (some (.ptrV (.structV t (g fs))))
  | .ifaceV (some (.structV t fs)) => .ifaceV (some (.structV t (g fs)))
  | .structV t fs => .structV t (g fs)
  | v => v

/-- Rebuild the root argument around an update of its struct's fields
(the write-back counterpart of `rootStruct`). -/
def mapRootStruct (s : Value) (g : List Value → List Value) : Value :=
  match s with
  | .ptrV (.structV t fs) => .ptrV (.structV t (g fs))
  | .structV t fs => .structV t (g fs)
  | .ifaceV (some (.ptrV (.structV t fs))) => .ifaceV (some (.ptrV (.structV t (g fs))))
  | .ifaceV (some (.structV t fs)) => .ifaceV (some (.structV t (g fs)))
  | v => v

/-- Apply an update to the field list of the struct at a path below a raw
field value. -/
def updFieldAlong : Value → Path → (List Value → List Value) → Value
  | fv, [], g => mapFieldStruct fv g
  | fv, i :: p, g =>
      mapFieldStruct fv (fun fs => fs.modify (fun fv' => updFieldAlong fv' p g) i)

/-- Apply an update to the field list of the struct at a path from the root. -/
def updateStructAt (st : Value) (p : Path) (g : List Value → List Value) : Value :=
  match p with
  | [] => mapRootStruct st g
  | i :: p' =>
      mapRootStruct st (fun fs => fs.modify (fun fv => updFieldAlong fv p' g) i)

/-- Store new slot contents back into a raw field value: assignments through a
pointer field go to the pointee. -/
def putSlot (fv newSlot : Value) : Value :=
  match fv with
  | .ptrV _ => .ptrV newSlot
  | _ => newSlot

/-- Mutate field `i` of the struct at path `p`: the model of a
`reflect.Value.Set` through the live reference. -/
def setFieldAt (st : Value) (p : Path) (i : Nat) (newSlot : Value) : Value :=
  updateStructAt st p (fun fs => fs.modify (fun fv => putSlot fv newSlot) i)

/-- The raw value of field `i` of the struct at path `p`. -/
def fieldValAt (st : Value) (p : Path) (i : Nat) : Value :=
  match getStructAt st p with
  | some (_, fs, _) => (fs.get? i).getD .nil
  | none => .nil

/-- The `curr` argument of `eval` as a Go value: the root argument itself at
the top call (`substruct == nil`), otherwise `byRef` of the nested struct —
a pointer when addressable, a plain copy otherwise (structor.go:129-133,273-278). -/
def currView (st : Value) : Option Path → Value
  | none => st
  | some p =>
    match getStructAt st p with
    | some (t, fs, addr) => if addr then .ptrV (.structV t fs) else .structV t fs
    | none => .nil

/-- The `"structor: <<%s>>: %v"` wrapping (structor.go:144,167). -/
def mkFieldErr (longName e : String) : String :=
  "structor: <<" ++ longName ++ ">>: " ++ e

/-- Outcome of processing one field (the closure body, structor.go:140-182):
an unrecovered panic, or the new root state together with the errors this
field contributed to `merr` (already flattened, as `multierror.Append` does)
and the expression contexts built while processing it (ghost trace). -/
inductive FOut : Type where
  | panic : String → FOut
  | done : Value → List String → List Ctx → FOut

/-- Lines 171-181: resolve the field's current value, unwrap one interface
level, and recurse into a nested struct, propagating the interpreter result
as the `Sub` context. -/
def evalFieldTail
    (recEval : Value → Value → Option Path → Value → Res (Value × List String × List Ctx))
    (st extra : Value) (path : Option Path) (addr : Bool) (i : Nat)
    (result : Value) (ctxs : List Ctx) : FOut :=
  match fieldStruct addr (fieldValAt st (path.getD []) i) with
  | none => .done st [] ctxs
  | some _ =>
    match recEval st extra (some (path.getD [] ++ [i])) result with
    | .panic m => .panic m
    | .err m => .done st [m] ctxs
    | .ok (st', errs, tr) => .done st' errs (ctxs ++ tr)

/-- The per-field closure (structor.go:140-182). -/
def evalField (ev : Evaluator)
    (recEval : Value → Value → Option Path → Value → Res (Value × List String × List Ctx))
    (st extra subctx : Value) (path : Option Path)
    (currTyName : String) (addr : Bool)
    (decl : String × Ty × String) (i : Nat) : FOut :=
  let fv := fieldValAt st (path.getD []) i
  let fr := fieldIntrospect ev addr decl fv
  let f := fr.1
  let longName := currTyName ++ "." ++ f.name
  match fr.2 with
  | some e => .done st [mkFieldErr longName e] []
  | none =>
    if (f.expr != "") || ev.options.evalEmptyTags then
      let ctx : Ctx :=
        { Name := f.name, LongName := longName, Tags := f.tags,
          Struct := st, Extra := extra, Sub := subctx,
          Val := match f.value with | some v => interfaceOf v | none => .nil }
      match f.interpreter with
      | none => .panic "runtime error: invalid memory address or nil pointer dereference"
      | some intr =>
        match intr f.expr ctx with
        | .error e => .done st [e] [ctx]
        | .ok result =>
          match (if ¬ ev.options.nonMutating ∧ f.settable
                 then reflectSet f.value f.typ result
                 else Except.ok none) with
          | .error e => .done st [mkFieldErr longName e] [ctx]
          | .ok slotNew =>
            let st' := match slotNew with
                       | some ns => setFieldAt st (path.getD []) i ns
                       | none => st
            evalFieldTail recEval st' extra path addr i result [ctx]
    else
      evalFieldTail recEval st extra path addr i .nil []

/-- The field loop (structor.go:139-186): process every field, collecting
each field's contributed errors (per field, so that the aggregate below is
their concatenation, as `multierror` produces). -/
def evalFields (ev : Evaluator)
    (recEval : Value → Value → Option Path → Value → Res (Value × List String × List Ctx))
    (extra subctx : Value) (path : Option Path)
    (currTyName : String) (addr : Bool) :
    Value → List (Nat × (String × Ty × String)) →
    Res (Value × List (List String) × List Ctx)
  | st, [] => .ok (st, [], [])
  | st, (i, decl) :: rest =>
    match evalField ev recEval st extra subctx path currTyName addr decl i with
    | .panic m => .panic m
    | .done st' errs ctxs =>
      match evalFields ev recEval extra subctx path currTyName addr st' rest with
      | .panic m => .panic m
      | .err m => .err m
      | .ok (st'', perField, tr) => .ok (st'', errs :: perField, ctxs ++ tr)

/-- Model of `eval` (structor.go:129-188).  The root state `st` stands for the
argument `s` of the outermost call (the Go code mutates it in place through
live references; the model threads it).  `path` stands for `substruct`
(`none` = nil), `subctx` for the propagated `Sub` value.  Returns the final
root state, the aggregated error list (`[]` = nil `merr`) and the ghost trace
of all expression contexts built.  Recursion depth is bounded by explicit
fuel; the Go code has no such bound (its recursion can in fact grow without
bound when interpreters keep producing nested tagged structs), and exhausted
fuel returns a no-op. -/
def eval (ev : Evaluator) : Nat → Value → Value → Option Path → Value →
    Res (Value × List String × List Ctx)
  | 0, st, _, _, _ => .ok (st, [], [])
  | fuel+1, st, extra, path, subctx =>
    match structIntrospect (currView st path) with
    | .panic m => .panic m
    | .err m => .err m
    | .ok (_t, decls, _, addr) =>
      match evalFields ev (eval ev fuel) extra subctx path
          (typeName (currView st path)) addr st decls.enum with
      | .panic m => .panic m
      | .err m => .err m
      | .ok (st', perField, tr) => .ok (st', perField.flatten, tr)

/-- Model of `Eval` (structor.go:115-117), with explicit recursion fuel. -/
def Evaluator.Eval (ev : Evaluator) (fuel : Nat) (s extra : Value) :
    Res (Value × List String × List Ctx) :=
  eval ev fuel s extra none .nil

/-- Projection: final root state of a successful run. -/
def Res.okSt : Res (Value × List String × List Ctx) → Option Value
  | .ok (st, _, _) => some st
  | _ => none

/-- Projection: aggregated error list of a successful run. -/
def Res.okErrs : Res (Value × List String × List Ctx) → Option (List String)
  | .ok (_, e, _) => some e
  | _ => none

/-- Projection: ghost context trace of a successful run. -/
def Res.okCtxs : Res (Value × List String × List Ctx) → Option (List Ctx)
  | .ok (_, _, c) => some c
  | _ => none

/-- Projection: the panic message, if the run panicked. -/
def Res.panicMsg {α : Type} : Res α → Option String
  | .panic m => some m
  | _ => none

/-- Projection: the immediately returned error, if any. -/
def Res.errMsg {α : Type} : Res α → Option String
  | .err m => some m
  | _ => none

/-- Projection: field `i`'s slot value (indirected) of the final root state. -/
def Res.okField (r : Res (Value × List String × List Ctx)) (p : Path) (i : Nat) :
    Option Value :=
  match r.okSt with
  | some st => some ((indirectF false (fieldValAt st p i)).1.getD .nil)
  | none => none

/-- Projection: field `i`'s slot as a string, when it holds one. -/
def Res.okFieldStr (r : Res (Value × List String × List Ctx)) (p : Path) (i : Nat) :
    Option String :=
  match r.okField p i with
  | some (.strV s) => some s
  | _ => none

/-- Whether a character list starts with a pattern. -/
def listStartsWith : List Char → List Char → Bool
  | _, [] => true
  | [], _ :: _ => false
  | a :: as, b :: bs => a == b && listStartsWith as bs

/-- Whether a character list contains a pattern as a contiguous sublist. -/
def listContainsSub : List Char → List Char → Bool
  | [], pat => match pat with | [] => true | _ :: _ => false
  | a :: as, pat => listStartsWith (a :: as) pat || listContainsSub as pat

/-- Whether a string contains a pattern as a substring (computable by `rfl`). -/
def strContains (s pat : String) : Bool :=
  listContainsSub s.toList pat.toList

/-- States reachable from a starting root state by engine field assignments
(`setFieldAt`) alone.  This is the value-level rendering of "the same root
object, possibly mutated in place": every expression context's `Struct` slot
is such a state, never a detached sub-record. -/
inductive RootEvolved (s : Value) : Value → Prop where
  | refl : RootEvolved s s
  | step (t : Value) (p : Path) (i : Nat) (ns : Value) :
      RootEvolved s t → RootEvolved s (setFieldAt t p i ns)

/-- The value `r` is the interpreter result a parent field produced on the
context `c'`: `c'` is exactly the expression context the engine assembles
(structor.go:148-158) for a field whose introspection at some root state
dispatched the interpreter `intr` (registered in the evaluator) with the
field's dispatched expression `f.expr`, and running that interpreter on that
expression and that very context succeeded with `r`.  This is the seeding
relation of the recursion at structor.go:179: the nested walk's `Sub` value
is precisely such a result. -/
def ParentResult (ev : Evaluator) (c' : Ctx) (r : Value) : Prop :=
  ∃ (st extra subctx : Value) (path : Option Path) (cn : String) (addr : Bool)
    (decl : String × Ty × String) (i : Nat) (f : FieldDescr) (intr : Interp),
    fieldIntrospect ev addr decl (fieldValAt st (path.getD []) i) = (f, none)
    ∧ f.interpreter = some intr
    ∧ (∃ k, List.lookup k ev.interpreters = some intr)
    ∧ c' = { Name := f.name, LongName := cn ++ "." ++ f.name, Tags := f.tags,
             Struct := st, Extra := extra, Sub := subctx,
             Val := match f.value with
                    | some v => interfaceOf v
                    | none => .nil }
    ∧ intr f.expr c' = Except.ok r

/-- Accounting for a context's `Sub` slot within a trace `tr`: it is either
the `subctx` the current level was entered with, or nil (no propagated
result), or the interpreter result produced by a parent field whose context
`c'` is in the trace — with the parent's own dispatched interpreter and
expression, run on the parent's own context (`ParentResult`). -/
def SubLink (ev : Evaluator) (tr : List Ctx) (sc : Value) (c : Ctx) : Prop :=
  c.Sub = sc ∨ c.Sub = .nil ∨
    ∃ c', c' ∈ tr ∧ ParentResult ev c' c.Sub

/-! Concrete scanners, interpreters, types and evaluators used by witnesses,
counterexamples and validation examples.  They mirror scenarios from
src/structor_test.go. -/

/-- Interpreter echoing its expression string as a string value. -/
def echoInterp : Interp := fun e _ => .ok (.strV e)

/-- Interpreter failing with a fixed message (no long name inside). -/
def failInterp : Interp := fun _ _ => .error "boom"

/-- Interpreter returning the propagated `Sub` value. -/
def subEchoInterp : Interp := fun _ ctx => .ok ctx.Sub

/-- Interpreter counting the characters of the expression it receives
(the `cc` interpreter of the tests). -/
def lenInterp : Interp := fun e _ => .ok (.intV e.length)

/-- Interpreter returning a nil result. -/
def nilInterp : Interp := fun _ _ => .ok Value.nil

/-- Interpreter returning the constant int 10. -/
def tenInterp : Interp := fun _ _ => .ok (.intV 10)

/-- Basic evaluator: one `e` interpreter, constant scanner. -/
def evBase : Evaluator :=
  { scanner := fun _ => ([("e", "ok")], none),
    interpreters := [("e", echoInterp)], options := {} }

/-- Struct type with a single tagged string field. -/
def tyOne : Ty := .structT "one" (mkDecls [("A", .strT, "e")])

/-- Evaluator whose `bad` interpreter always fails. -/
def evErr : Evaluator :=
  { scanner := fun raw =>
      (if raw = "bad" then [("bad", "x")] else [("e", "ok")], none),
    interpreters := [("e", echoInterp), ("bad", failInterp)],
    options := {} }

/-- Struct type with a failing first field and a succeeding second field. -/
def tyErr : Ty :=
  .structT "errStruct" (mkDecls [("A", .strT, "bad"), ("B", .strT, "good")])

/-- Inner struct type whose field would be set by the `sub` interpreter. -/
def tyInS : Ty := .structT "innerSub" (mkDecls [("F1", .strT, "sub")])

/-- Outer struct type whose only field is a nested struct tagged `bad`. -/
def tyO2 : Ty := .structT "outer2" (mkDecls [("K", tyInS, "bad")])

/-- Evaluator for the failure-skips-recursion scenario. -/
def evBad : Evaluator :=
  { scanner := fun raw =>
      (if raw = "bad" then [("bad", "x")] else [("sub", "y")], none),
    interpreters := [("bad", failInterp), ("sub", echoInterp)],
    options := {} }

/-- The outer2 root value (passed by pointer). -/
def rootO2 : Value := .ptrV (.structV tyO2 [.structV tyInS [.strV ""]])

/-- Non-mutating evaluator fixture. -/
def evNM : Evaluator :=
  { scanner := fun _ => ([("e", "x")], none),
    interpreters := [("e", fun _ _ => .ok (.intV 42))],
    options := { nonMutating := true } }

/-- Struct type with an int field and a pointer field, as in
TestNonMutatingEvaluator. -/
def tyNM : Ty :=
  .structT "nm" (mkDecls [("A", .intT, "e"), ("D", .ptrT .intT, "e")])

/-- The nm root value. -/
def rootNM : Value := .ptrV (.structV tyNM [.intV 0, .ptrNil .intT])

/-- Interpreter prefixing its expression with "A". -/
def prefA : Interp := fun e _ => .ok (.strV ("A" ++ e))

/-- Interpreter prefixing its expression with "B". -/
def prefB : Interp := fun e _ => .ok (.strV ("B" ++ e))

/-- Struct type for the dispatch-order scenario. -/
def tyP9 : Ty := .structT "P" (mkDecls [("F", .strT, "x")])

/-- The P root value. -/
def rootP9 : Value := .ptrV (.structV tyP9 [.strV ""])

/-- Evaluator observing the tag map in one iteration order. -/
def evP1 : Evaluator :=
  { scanner := fun _ => ([("a", "1"), ("b", "2")], none),
    interpreters := [("a", prefA), ("b", prefB)], options := {} }

/-- Same evaluator, except the scanned map is iterated in the other order. -/
def evP2 : Evaluator :=
  { scanner := fun _ => ([("b", "2"), ("a", "1")], none),
    interpreters := [("a", prefA), ("b", prefB)], options := {} }

/-- Evaluator with EvalEmptyTags on, whose registry matches no tag key and
has no WholeTag entry. -/
def evEET : Evaluator :=
  { scanner := fun _ => ([], none),
    interpreters := [("zz", nilInterp)],
    options := { evalEmptyTags := true } }

/-- Struct type with an untagged string field. -/
def tyP10 : Ty := .structT "p" (mkDecls [("A", .strT, "")])

/-- The nil-interpreter dereference panic message. -/
def nilInterpPanic : String :=
  "runtime error: invalid memory address or nil pointer dereference"

/-- Induction invariant for recursive calls of the walk: a successful run
starting from root state `st` ends in a state reachable from `st` by engine
assignments, and every context it builds carries the threaded `extra`, a
root-evolved `Struct` slot, and an accounted-for `Sub` slot. -/
def RecOK (ev : Evaluator)
    (recEval : Value → Value → Option Path → Value →
      Res (Value × List String × List Ctx)) : Prop :=
  ∀ st extra path subctx stF errs tr,
    recEval st extra path subctx = .ok (stF, errs, tr) →
    RootEvolved st stF ∧
      ∀ c ∈ tr, c.Extra = extra ∧ RootEvolved st c.Struct ∧
        SubLink ev tr subctx c

/-- Expression context built for field A of the nm fixture. -/
def ctxNM1 : Ctx :=
  { Name := "A", LongName := "*nm.A", Tags := [], Struct := rootNM,
    Extra := .nil, Sub := .nil, Val := .intV 0 }

/-- Expression context built for field D of the nm fixture. -/
def ctxNM2 : Ctx :=
  { Name := "D", LongName := "*nm.D", Tags := [], Struct := rootNM,
    Extra := .nil, Sub := .nil, Val := .nil }

/-- Evaluator whose scanned tag map has one registered key among two, in one
iteration order. -/
def evQ1 : Evaluator :=
  { scanner := fun _ => ([("zz", "1"), ("e", "ok")], none),
    interpreters := [("e", echoInterp)], options := {} }

/-- Same evaluator, with the map iterated in the other order. -/
def evQ2 : Evaluator :=
  { scanner := fun _ => ([("e", "ok"), ("zz", "1")], none),
    interpreters := [("e", echoInterp)], options := {} }

/-- Root value for the context-invariants witness. -/
def rootC3 : Value := .ptrV (.structV tyOne [.strV ""])

/-- Final state of the context-invariants witness run. -/
def stFC3 : Value := .ptrV (.structV tyOne [.strV "ok"])

/-- The single expression context built by the flat fixture run. -/
def ctxC3 : Ctx :=
  { Name := "A", LongName := "*one.A", Tags := [], Struct := rootC3,
    Extra := .strV "EX", Sub := .nil, Val := .strV "" }

/-- Interpreter producing the constant seed value for a nested run. -/
def seedInterp : Interp := fun _ _ => .ok (.strV "SEEDED")

/-- Outer struct type whose pointer field to innerSub is tagged `seed`
(TestObj's F *innerSub scenario). -/
def tyObjS : Ty := .structT "obj" (mkDecls [("F", .ptrT tyInS, "seed")])

/-- Evaluator for the Sub-propagation scenario: the outer field's `seed`
interpreter produces a value, the nested field's `sub` interpreter reads the
propagated `Sub` slot. -/
def evSub : Evaluator :=
  { scanner := fun raw =>
      (if raw = "seed" then [("seed", "x")] else [("sub", "y")], none),
    interpreters := [("seed", seedInterp), ("sub", subEchoInterp)],
    options := {} }

/-- Root value of the Sub-propagation run. -/
def rootSub : Value :=
  .ptrV (.structV tyObjS [.ptrV (.structV tyInS [.strV ""])])

/-- Final state of the Sub-propagation run: the nested F1 received the
seeded value through its expression context's `Sub` slot. -/
def stFSub : Value :=
  .ptrV (.structV tyObjS [.ptrV (.structV tyInS [.strV "SEEDED"])])

/-- Context assembled for the outer field F of the Sub-propagation run. -/
def ctxSub0 : Ctx :=
  { Name := "F", LongName := "*obj.F", Tags := [], Struct := rootSub,
    Extra := .nil, Sub := .nil, Val := .structV tyInS [.strV ""] }

/-- Context assembled for the nested field F1 of the Sub-propagation run:
its `Sub` slot is the outer field's interpreter result. -/
def ctxSub1 : Ctx :=
  { Name := "F1", LongName := "*innerSub.F1", Tags := [], Struct := rootSub,
    Extra := .nil, Sub := .strV "SEEDED", Val := .strV "" }

/-!  Validation examples: the model reproduces the behaviour asserted by the
repository's own tests (src/structor_test.go). -/

example :
    (evErr.Eval 3 (.ptrV (.structV tyErr [.strV "", .strV ""])) .nil).okErrs
      = some ["boom"] := rfl

example :
    (evErr.Eval 3 (.ptrV (.structV tyErr [.strV "", .strV ""])) .nil).okFieldStr [] 1
      = some "ok" := rfl

example :
    (evBad.Eval 9 rootO2 .nil).okSt = some rootO2 := rfl

example :
    (evNM.Eval 2 rootNM .nil).okSt = some rootNM := rfl

example :
    (evSub.Eval 3 rootSub .nil).okSt = some stFSub := rfl

example :
    (evSub.Eval 3 rootSub .nil).okCtxs = some [ctxSub0, ctxSub1] := rfl

/-! Helper lemmas. -/

/-- Transitivity of root-state evolution. -/
theorem RootEvolved.trans {a b c : Value}
    (hab : RootEvolved a b) (hbc : RootEvolved b c) : RootEvolved a c := by
  induction hbc with
  | refl => exact hab
  | step t p i ns _ ih => exact RootEvolved.step t p i ns ih

/-- Sub-slot accounting is monotone in the trace. -/
theorem SubLink.mono {ev : Evaluator} {tr tr' : List Ctx} {sc : Value} {c : Ctx}
    (h : SubLink ev tr sc c) (hsub : ∀ x ∈ tr, x ∈ tr') : SubLink ev tr' sc c := by
  rcases h with h | h | ⟨c', hc', rest⟩
  · exact Or.inl h
  · exact Or.inr (Or.inl h)
  · exact Or.inr (Or.inr ⟨c', hsub c' hc', rest⟩)

/-- A successful dispatch entry comes from the tag list and is registered. -/
theorem scanTags_mem {reg : List (String × Interp)} :
    ∀ {l : List (String × String)} {k t : String} {intr : Interp},
      scanTags reg l = some (k, t, intr) →
      (k, t) ∈ l ∧ List.lookup k reg = some intr := by
  intro l
  induction l with
  | nil => intro k t intr h; simp [scanTags] at h
  | cons p rest ih =>
    intro k t intr h
    obtain ⟨pk, pt⟩ := p
    rw [scanTags] at h
    cases hl : List.lookup pk reg with
    | some i =>
      rw [hl] at h
      cases h
      exact ⟨List.mem_cons_self _ _, hl⟩
    | none =>
      rw [hl] at h
      exact ⟨List.mem_cons_of_mem _ (ih h).1, (ih h).2⟩

/-- If no tag key is registered, the dispatch loop finds nothing. -/
theorem scanTags_none {reg : List (String × Interp)} :
    ∀ {l : List (String × String)},
      (∀ p ∈ l, List.lookup p.1 reg = none) → scanTags reg l = none := by
  intro l
  induction l with
  | nil => intro _; rfl
  | cons p rest ih =>
    intro h
    obtain ⟨pk, pt⟩ := p
    have h0 : List.lookup pk reg = none := h (pk, pt) (List.mem_cons_self _ _)
    rw [scanTags, h0]
    exact ih (fun q hq => h q (List.mem_cons_of_mem _ hq))

/-- If some tag key is registered, the dispatch loop finds an entry. -/
theorem scanTags_isSome_of_exists {reg : List (String × Interp)} :
    ∀ {l : List (String × String)},
      (∃ p ∈ l, (List.lookup p.1 reg).isSome) →
      ∃ k t intr, scanTags reg l = some (k, t, intr) := by
  intro l
  induction l with
  | nil => rintro ⟨p, hp, _⟩; simp at hp
  | cons q rest ih =>
    rintro ⟨p, hp, hsome⟩
    obtain ⟨qk, qt⟩ := q
    rw [scanTags]
    cases hl : List.lookup qk reg with
    | some i => exact ⟨qk, qt, i, rfl⟩
    | none =>
      rcases List.mem_cons.mp hp with heq | hmem
      · subst heq; rw [hl] at hsome; simp at hsome
      · exact ih ⟨p, hmem, hsome⟩

/-- Unfolding of `fieldIntrospect` when scanning fails. -/
theorem fieldIntrospect_scanerr {ev : Evaluator} {pa : Bool}
    {fname : String} {fty : Ty} {ftag : String} {fv : Value} {e : String}
    (hscan : (ev.scanner ftag).2 = some e) :
    fieldIntrospect ev pa (fname, fty, ftag) fv
      = ({ name := fname, expr := "", interpreter := none,
           value := (indirectF pa fv).1, valueAddr := (indirectF pa fv).2,
           typ := fty, tags := (ev.scanner ftag).1, settable := false },
         some e) := by
  simp only [fieldIntrospect]
  rw [hscan]

/-- Unfolding of `fieldIntrospect` when a named tag key is dispatched. -/
theorem fieldIntrospect_named {ev : Evaluator} {pa : Bool}
    {fname : String} {fty : Ty} {ftag : String} {fv : Value}
    {k tv : String} {intr : Interp}
    (hscan : (ev.scanner ftag).2 = none)
    (hst : scanTags ev.interpreters (ev.scanner ftag).1 = some (k, tv, intr)) :
    fieldIntrospect ev pa (fname, fty, ftag) fv
      = ({ name := fname, expr := tv, interpreter := some intr,
           value := (indirectF pa fv).1, valueAddr := (indirectF pa fv).2,
           typ := fty,
           tags := (ev.scanner ftag).1.filter (fun p => p.1 != k),
           settable := match (indirectF pa fv).1 with
                       | some _ => (indirectF pa fv).2
                       | none => false },
         none) := by
  simp only [fieldIntrospect]
  rw [hscan, hst]

/-- Unfolding of `fieldIntrospect` when only the WholeTag entry matches. -/
theorem fieldIntrospect_whole {ev : Evaluator} {pa : Bool}
    {fname : String} {fty : Ty} {ftag : String} {fv : Value} {intr : Interp}
    (hscan : (ev.scanner ftag).2 = none)
    (hst : scanTags ev.interpreters (ev.scanner ftag).1 = none)
    (hwt : List.lookup WholeTag ev.interpreters = some intr) :
    fieldIntrospect ev pa (fname, fty, ftag) fv
      = ({ name := fname, expr := ftag, interpreter := some intr,
           value := (indirectF pa fv).1, valueAddr := (indirectF pa fv).2,
           typ := fty,
           tags := (ev.scanner ftag).1.filter (fun p => p.1 != WholeTag),
           settable := match (indirectF pa fv).1 with
                       | some _ => (indirectF pa fv).2
                       | none => false },
         none) := by
  simp only [fieldIntrospect]
  rw [hscan, hst, hwt]

/-- Unfolding of `fieldIntrospect` when nothing is dispatched. -/
theorem fieldIntrospect_nomatch {ev : Evaluator} {pa : Bool}
    {fname : String} {fty : Ty} {ftag : String} {fv : Value}
    (hscan : (ev.scanner ftag).2 = none)
    (hst : scanTags ev.interpreters (ev.scanner ftag).1 = none)
    (hwt : List.lookup WholeTag ev.interpreters = none) :
    fieldIntrospect ev pa (fname, fty, ftag) fv
      = ({ name := fname, expr := "", interpreter := none,
           value := (indirectF pa fv).1, valueAddr := (indirectF pa fv).2,
           typ := fty, tags := (ev.scanner ftag).1,
           settable := match (indirectF pa fv).1 with
                       | some _ => (indirectF pa fv).2
                       | none => false },
         none) := by
  simp only [fieldIntrospect]
  rw [hscan, hst, hwt]

/-- A field descriptor without an interpreter has an empty expression. -/
theorem fieldIntrospect_none_expr {ev : Evaluator} {pa : Bool}
    {decl : String × Ty × String} {fv : Value}
    (h : (fieldIntrospect ev pa decl fv).1.interpreter = none) :
    (fieldIntrospect ev pa decl fv).1.expr = "" := by
  obtain ⟨fname, fty, ftag⟩ := decl
  cases hscan : (ev.scanner ftag).2 with
  | some e => rw [fieldIntrospect_scanerr hscan]
  | none =>
    cases hst : scanTags ev.interpreters (ev.scanner ftag).1 with
    | some kti =>
      obtain ⟨k, tv, intr⟩ := kti
      rw [fieldIntrospect_named hscan hst] at h
      exact absurd h (by simp)
    | none =>
      cases hwt : List.lookup WholeTag ev.interpreters with
      | some intr =>
        rw [fieldIntrospect_whole hscan hst hwt] at h
        exact absurd h (by simp)
      | none => rw [fieldIntrospect_nomatch hscan hst hwt]

/-- A dispatched interpreter is registered under some key. -/
theorem fieldIntrospect_registered {ev : Evaluator} {pa : Bool}
    {decl : String × Ty × String} {fv : Value} {intr : Interp}
    (h : (fieldIntrospect ev pa decl fv).1.interpreter = some intr) :
    ∃ k, List.lookup k ev.interpreters = some intr := by
  obtain ⟨fname, fty, ftag⟩ := decl
  cases hscan : (ev.scanner ftag).2 with
  | some e =>
    rw [fieldIntrospect_scanerr hscan] at h
    exact absurd h (by simp)
  | none =>
    cases hst : scanTags ev.interpreters (ev.scanner ftag).1 with
    | some kti =>
      obtain ⟨k, tv, i⟩ := kti
      rw [fieldIntrospect_named hscan hst] at h
      refine ⟨k, ?_⟩
      have := (scanTags_mem hst).2
      simpa using h ▸ this
    | none =>
      cases hwt : List.lookup WholeTag ev.interpreters with
      | some i =>
        rw [fieldIntrospect_whole hscan hst hwt] at h
        refine ⟨WholeTag, ?_⟩
        simpa using h ▸ hwt
      | none =>
        rw [fieldIntrospect_nomatch hscan hst hwt] at h
        exact absurd h (by simp)

/-- C1: interpreter dispatch selects at most one interpreter per field: a
registered named tag key wins, its entry is removed from the exposed tag map
and its value becomes the expression; only if no named key matches is the
WholeTag catch-all selected, with the entire raw annotation string (not a
parsed tag value) as the expression; with neither, no interpreter and an
empty expression result. -/
theorem c1_dispatch (ev : Evaluator) (parentAddr : Bool)
    (fname : String) (fty : Ty) (ftag : String) (fv : Value)
    (hscan : (ev.scanner ftag).2 = none) :
    ((∃ p ∈ (ev.scanner ftag).1, (List.lookup p.1 ev.interpreters).isSome) →
      ∃ k v intr, (k, v) ∈ (ev.scanner ftag).1 ∧
        List.lookup k ev.interpreters = some intr ∧
        (fieldIntrospect ev parentAddr (fname, fty, ftag) fv).1.expr = v ∧
        (fieldIntrospect ev parentAddr (fname, fty, ftag) fv).1.interpreter
          = some intr ∧
        (fieldIntrospect ev parentAddr (fname, fty, ftag) fv).1.tags
          = (ev.scanner ftag).1.filter (fun p => p.1 != k))
    ∧ ((∀ p ∈ (ev.scanner ftag).1, List.lookup p.1 ev.interpreters = none) →
      ∀ intr, List.lookup WholeTag ev.interpreters = some intr →
        (fieldIntrospect ev parentAddr (fname, fty, ftag) fv).1.expr = ftag ∧
        (fieldIntrospect ev parentAddr (fname, fty, ftag) fv).1.interpreter
          = some intr ∧
        (fieldIntrospect ev parentAddr (fname, fty, ftag) fv).1.tags
          = (ev.scanner ftag).1.filter (fun p => p.1 != WholeTag))
    ∧ ((∀ p ∈ (ev.scanner ftag).1, List.lookup p.1 ev.interpreters = none) →
      List.lookup WholeTag ev.interpreters = none →
        (fieldIntrospect ev parentAddr (fname, fty, ftag) fv).1.expr = "" ∧
        (fieldIntrospect ev parentAddr (fname, fty, ftag) fv).1.interpreter
          = none ∧
        (fieldIntrospect ev parentAddr (fname, fty, ftag) fv).1.tags
          = (ev.scanner ftag).1) := by
  refine ⟨?_, ?_, ?_⟩
  · intro hex
    obtain ⟨k, tv, intr, hst⟩ := scanTags_isSome_of_exists hex
    obtain ⟨hmem, hreg⟩ := scanTags_mem hst
    exact ⟨k, tv, intr, hmem, hreg, by rw [fieldIntrospect_named hscan hst],
      by rw [fieldIntrospect_named hscan hst],
      by rw [fieldIntrospect_named hscan hst]⟩
  · intro hno intr hwt
    have hst := scanTags_none hno
    exact ⟨by rw [fieldIntrospect_whole hscan hst hwt],
      by rw [fieldIntrospect_whole hscan hst hwt],
      by rw [fieldIntrospect_whole hscan hst hwt]⟩
  · intro hno hwt
    have hst := scanTags_none hno
    exact ⟨by rw [fieldIntrospect_nomatch hscan hst hwt],
      by rw [fieldIntrospect_nomatch hscan hst hwt],
      by rw [fieldIntrospect_nomatch hscan hst hwt]⟩

/-- C1 witness: dispatch on the base fixture, concretely. -/
theorem c1_witness :
    ∃ k v intr, (k, v) ∈ (evBase.scanner "x").1 ∧
      List.lookup k evBase.interpreters = some intr ∧
      (fieldIntrospect evBase true ("A", .strT, "x") (.strV "")).1.expr = v ∧
      (fieldIntrospect evBase true ("A", .strT, "x") (.strV "")).1.interpreter
        = some intr ∧
      (fieldIntrospect evBase true ("A", .strT, "x") (.strV "")).1.tags
        = (evBase.scanner "x").1.filter (fun p => p.1 != k) :=
  (c1_dispatch evBase true "A" .strT "x" (.strV "") rfl).1
    ⟨("e", "ok"), by simp [evBase], by simp [evBase]⟩

/-- C8: constructing an evaluator with an empty interpreter registry panics at
construction time, for every scanner and options value; a non-empty registry
yields an evaluator with exactly the given settings. -/
theorem c8_empty_registry_fails_fast
    (sc : Scanner) (interps : List (String × Interp)) (opts : Options) :
    (interps = [] →
      NewEvaluatorWithOptions sc interps opts = .panic "no interpreters registered")
    ∧ (interps ≠ [] →
      NewEvaluatorWithOptions sc interps opts
        = .ok { scanner := sc, interpreters := interps, options := opts }) := by
  constructor
  · intro h; subst h; rfl
  · intro h
    have hlen : ¬ interps.length = 0 := by
      intro hl; exact h (List.length_eq_zero.mp hl)
    simp [NewEvaluatorWithOptions, hlen]

/-- C8 witness: the empty and a singleton registry, concretely. -/
theorem c8_witness :
    NewEvaluatorWithOptions (fun _ => ([], none)) [] {}
        = .panic "no interpreters registered"
    ∧ NewEvaluatorWithOptions (fun _ => ([], none)) [("e", echoInterp)] {}
        = .ok { scanner := fun _ => ([], none),
                interpreters := [("e", echoInterp)], options := {} } :=
  ⟨(c8_empty_registry_fails_fast (fun _ => ([], none)) [] {}).1 rfl,
   (c8_empty_registry_fails_fast (fun _ => ([], none)) [("e", echoInterp)] {}).2
     (List.cons_ne_nil _ _)⟩

/-- The zero value of a type has that type. -/
theorem typeOf_zeroVal (t : Ty) : typeOf (zeroVal t) = some t := by
  cases t <;> rfl

/-- Unfolding of `reflectSet` on a non-nil result of known dynamic type. -/
theorem reflectSet_eq_of_ne_nil {v : Option Value} {vt : Ty} {nv : Value}
    {nt : Ty} (h : nv ≠ .nil) (hty : typeOf nv = some nt) :
    reflectSet v vt nv =
      if ¬ convertibleTo nt vt ∧ kindIsStruct v then .ok none
      else
        match convert nv vt with
        | none =>
            .error ("structor: reflect.Value.Convert: value of type " ++
              tyName nt ++ " cannot be converted to type " ++ tyName vt)
        | some c =>
          match v with
          | none => .error "reflect: call of reflect.Value.Set on zero Value"
          | some slot => setVal slot c := by
  cases nv
  case nil => exact absurd rfl h
  case ptrV e =>
    simp only [reflectSet]
    rw [hty]
  all_goals (cases hty; rfl)

/-- C4 (amended): ordered coercion-and-assignment policy of `reflectSet`:
an invalid slot with nil result does nothing; a nil result assigns the zero
value of the declared type whenever the slot has the declared type; a
non-convertible result into a struct-kind slot silently does nothing;
otherwise a disallowed conversion is returned as a recovered error. -/
theorem c4_reflectSet_policy (v : Option Value) (vt : Ty) (nv : Value) :
    (nv = .nil → v = none → reflectSet v vt nv = .ok none)
    ∧ (∀ slot, nv = .nil → v = some slot → typeOf slot = some vt →
        reflectSet v vt nv = .ok (some (zeroVal vt)))
    ∧ (∀ nt, nv ≠ .nil → typeOf nv = some nt → convertibleTo nt vt = false →
        kindIsStruct v = true → reflectSet v vt nv = .ok none)
    ∧ (∀ nt, nv ≠ .nil → typeOf nv = some nt → convert nv vt = none →
        kindIsStruct v = false → ∃ m, reflectSet v vt nv = .error m) := by
  refine ⟨?_, ?_, ?_, ?_⟩
  · intro h1 h2; subst h1; subst h2; rfl
  · intro slot h1 h2 hty
    subst h1; subst h2
    show setVal slot (zeroVal vt) = .ok (some (zeroVal vt))
    rw [setVal, hty]
    cases vt <;> simp [zeroVal, typeOf, boxIface]
  · intro nt hnv hty hconv hkind
    have hcond : (¬ convertibleTo nt vt ∧ kindIsStruct v) := by
      constructor
      · simp [hconv]
      · simp [hkind]
    rw [reflectSet_eq_of_ne_nil hnv hty, if_pos hcond]
  · intro nt hnv hty hcv hkind
    have hcond : ¬ (¬ convertibleTo nt vt ∧ kindIsStruct v) := by
      rintro ⟨-, hk⟩
      rw [hkind] at hk
      exact absurd hk (by simp)
    rw [reflectSet_eq_of_ne_nil hnv hty, if_neg hcond, hcv]
    exact ⟨_, rfl⟩

/-- C4 counterexample: a nil interpreter result for a non-nil pointer field
(the storage slot is the `int` pointee, while the declared type is `*int`)
does not assign the field's zero value: the attempted `Set` of a `*int` zero
into an `int` slot panics and is returned as a recovered error. -/
theorem c4_counterexample :
    reflectSet (some (.intV 3)) (.ptrT .intT) .nil
      = .error "reflect.Set: value of type *int is not assignable to type int"
    ∧ reflectSet (some (.intV 3)) (.ptrT .intT) .nil
      ≠ .ok (some (zeroVal (.ptrT .intT))) := by
  constructor
  · rfl
  · intro h
    rw [show reflectSet (some (.intV 3)) (.ptrT .intT) .nil
        = .error "reflect.Set: value of type *int is not assignable to type int"
      from rfl] at h
    exact Except.noConfusion h

/-- C4 witness: the policy applied to a string slot, concretely. -/
theorem c4_witness :
    reflectSet (some (.strV "x")) .strT .nil = .ok (some (zeroVal .strT)) :=
  (c4_reflectSet_policy (some (.strV "x")) .strT .nil).2.1 (.strV "x") rfl rfl rfl

/-- C5 (amended): when the dispatched interpreter's Execute fails, the engine
records the interpreter's error verbatim — without wrapping it in the long
field name — does not mutate the field, and still processes the remaining
fields from the same state. -/
theorem c5_interpreter_error_recorded_verbatim (ev : Evaluator)
    (recEval : Value → Value → Option Path → Value →
      Res (Value × List String × List Ctx))
    (st extra subctx : Value) (path : Option Path) (cn : String) (addr : Bool)
    (decl : String × Ty × String) (i : Nat) (f : FieldDescr) (intr : Interp)
    (m : String)
    (hfi : fieldIntrospect ev addr decl (fieldValAt st (path.getD []) i)
      = (f, none))
    (hintr : f.interpreter = some intr)
    (hguard : ((f.expr != "") || ev.options.evalEmptyTags) = true)
    (hfail : ∀ e c, intr e c = Except.error m) :
    ∃ ctx, evalField ev recEval st extra subctx path cn addr decl i
        = .done st [m] [ctx]
      ∧ ∀ rest, evalFields ev recEval extra subctx path cn addr st
            ((i, decl) :: rest)
          = match evalFields ev recEval extra subctx path cn addr st rest with
            | .panic q => .panic q
            | .err q => .err q
            | .ok (st', pf, tr) => .ok (st', [m] :: pf, ctx :: tr) := by
  have hA : evalField ev recEval st extra subctx path cn addr decl i
      = .done st [m]
          [{ Name := f.name, LongName := cn ++ "." ++ f.name, Tags := f.tags,
             Struct := st, Extra := extra, Sub := subctx,
             Val := match f.value with
                    | some v => interfaceOf v
                    | none => .nil }] := by
    simp only [evalField, hfi, hguard, hintr, if_true]
    rw [hfail]
  refine ⟨_, hA, fun rest => ?_⟩
  simp only [evalFields]
  rw [hA]
  dsimp only
  cases hrest : evalFields ev recEval extra subctx path cn addr st rest with
  | panic q => rfl
  | err q => rfl
  | ok out =>
    obtain ⟨a, b, c⟩ := out
    rfl

/-- C5 counterexample: a failing interpreter on field A of errStruct leaves
the aggregated error list as exactly the raw message "boom", which does not
contain the long-name marker; the sibling field B is still evaluated and
mutated. -/
theorem c5_counterexample :
    (evErr.Eval 3 (.ptrV (.structV tyErr [.strV "", .strV ""])) .nil).okErrs
        = some ["boom"]
    ∧ strContains "boom" "<<" = false
    ∧ (evErr.Eval 3 (.ptrV (.structV tyErr [.strV "", .strV ""])) .nil).okFieldStr [] 1
        = some "ok" :=
  ⟨rfl, rfl, rfl⟩

/-- C5 witness: the amended behaviour on the errStruct fixture. -/
theorem c5_witness :
    ∃ ctx, evalField evErr (eval evErr 0)
        (.ptrV (.structV tyErr [.strV "", .strV ""])) .nil .nil none
        "*errStruct" true ("A", .strT, "bad") 0
        = .done (.ptrV (.structV tyErr [.strV "", .strV ""])) ["boom"] [ctx]
      ∧ ∀ rest, evalFields evErr (eval evErr 0) .nil .nil none "*errStruct" true
            (.ptrV (.structV tyErr [.strV "", .strV ""])) ((0, ("A", .strT, "bad")) :: rest)
          = match evalFields evErr (eval evErr 0) .nil .nil none "*errStruct" true
                (.ptrV (.structV tyErr [.strV "", .strV ""])) rest with
            | .panic q => .panic q
            | .err q => .err q
            | .ok (st', pf, tr) => .ok (st', ["boom"] :: pf, ctx :: tr) :=
  c5_interpreter_error_recorded_verbatim evErr (eval evErr 0)
    (.ptrV (.structV tyErr [.strV "", .strV ""])) .nil .nil none
    "*errStruct" true ("A", .strT, "bad") 0 _ failInterp "boom"
    rfl rfl rfl (fun _ _ => rfl)

/-- C6 (amended): recursion into a nested record is not attempted when the
field's expression step failed: on an interpreter-execution failure, and
likewise on a coercion/assignment failure, the per-field processing returns
early, so its outcome does not depend on the recursive walk at all. -/
theorem c6_failure_skips_recursion (ev : Evaluator)
    (recEval recEval' : Value → Value → Option Path → Value →
      Res (Value × List String × List Ctx))
    (st extra subctx : Value) (path : Option Path) (cn : String) (addr : Bool)
    (decl : String × Ty × String) (i : Nat) (f : FieldDescr) (intr : Interp)
    (hfi : fieldIntrospect ev addr decl (fieldValAt st (path.getD []) i)
      = (f, none))
    (hintr : f.interpreter = some intr)
    (hguard : ((f.expr != "") || ev.options.evalEmptyTags) = true) :
    ((∀ e c, ∃ m, intr e c = Except.error m) →
      evalField ev recEval st extra subctx path cn addr decl i
        = evalField ev recEval' st extra subctx path cn addr decl i)
    ∧ (∀ r em, (∀ e c, intr e c = Except.ok r) →
        (¬ ev.options.nonMutating ∧ f.settable) →
        reflectSet f.value f.typ r = .error em →
        evalField ev recEval st extra subctx path cn addr decl i
          = evalField ev recEval' st extra subctx path cn addr decl i
        ∧ evalField ev recEval st extra subctx path cn addr decl i
          = .done st [mkFieldErr (cn ++ "." ++ f.name) em]
              [{ Name := f.name, LongName := cn ++ "." ++ f.name,
                 Tags := f.tags, Struct := st, Extra := extra, Sub := subctx,
                 Val := match f.value with
                        | some v => interfaceOf v
                        | none => .nil }]) := by
  constructor
  · intro hfail
    obtain ⟨m, hm⟩ := hfail f.expr
      { Name := f.name, LongName := cn ++ "." ++ f.name, Tags := f.tags,
        Struct := st, Extra := extra, Sub := subctx,
        Val := match f.value with | some v => interfaceOf v | none => .nil }
    simp only [evalField, hfi, hguard, hintr, if_true]
    rw [hm]
  · intro r em hok hmut hset
    have hA : evalField ev recEval st extra subctx path cn addr decl i
        = .done st [mkFieldErr (cn ++ "." ++ f.name) em]
            [{ Name := f.name, LongName := cn ++ "." ++ f.name,
               Tags := f.tags, Struct := st, Extra := extra, Sub := subctx,
               Val := match f.value with
                      | some v => interfaceOf v
                      | none => .nil }] := by
      simp only [evalField, hfi, hguard, hintr, if_true, hok, if_pos hmut, hset]
    have hA' : evalField ev recEval' st extra subctx path cn addr decl i
        = .done st [mkFieldErr (cn ++ "." ++ f.name) em]
            [{ Name := f.name, LongName := cn ++ "." ++ f.name,
               Tags := f.tags, Struct := st, Extra := extra, Sub := subctx,
               Val := match f.value with
                      | some v => interfaceOf v
                      | none => .nil }] := by
      simp only [evalField, hfi, hguard, hintr, if_true, hok, if_pos hmut, hset]
    exact ⟨hA.trans hA'.symm, hA⟩

/-- The current view of the root call is the root argument itself. -/
theorem currView_none (st : Value) : currView st none = st := rfl

/-- The field loop never produces a returned (non-panic) error of its own:
all per-field failures are recorded, not returned. -/
theorem evalFields_ne_err (ev : Evaluator)
    (recEval : Value → Value → Option Path → Value →
      Res (Value × List String × List Ctx))
    (extra subctx : Value) (path : Option Path) (cn : String) (addr : Bool) :
    ∀ (l : List (Nat × (String × Ty × String))) (st : Value) (m : String),
      evalFields ev recEval extra subctx path cn addr st l ≠ .err m := by
  intro l
  induction l with
  | nil => intro st m h; exact Res.noConfusion h
  | cons p rest ih =>
    intro st m h
    obtain ⟨i, decl⟩ := p
    rw [evalFields] at h
    cases hf : evalField ev recEval st extra subctx path cn addr decl i with
    | panic q => rw [hf] at h; exact Res.noConfusion h
    | done st' errs ctxs =>
      rw [hf] at h
      dsimp only at h
      cases hr : evalFields ev recEval extra subctx path cn addr st' rest with
      | panic q => rw [hr] at h; exact Res.noConfusion h
      | err q => exact ih st' q hr
      | ok out =>
        obtain ⟨a, b, c⟩ := out
        rw [hr] at h
        exact Res.noConfusion h

/-- C2 (amended): the returned-error behaviour of a call: an error is
returned immediately iff the root argument fails struct introspection (a
non-nil, non-struct value); a nil root propagates the introspection panic
instead; otherwise the call succeeds with the aggregated error list being
exactly the concatenation of the per-field error lists — nil iff no field
failed at any depth. -/
theorem c2_only_root_error_is_fatal (ev : Evaluator) (fuel : Nat)
    (st extra : Value) :
    (∀ m, eval ev (fuel+1) st extra none .nil = .err m
      ↔ structIntrospect st = .err m)
    ∧ (∀ m, structIntrospect st = .panic m →
        eval ev (fuel+1) st extra none .nil = .panic m)
    ∧ (∀ stF errs tr,
        eval ev (fuel+1) st extra none .nil = .ok (stF, errs, tr) →
        ∃ t decls fs addr perField,
          structIntrospect st = .ok (t, decls, fs, addr) ∧
          evalFields ev (eval ev fuel) extra .nil none (typeName st) addr st
              decls.enum = .ok (stF, perField, tr) ∧
          errs = perField.flatten ∧
          (errs = [] ↔ ∀ l ∈ perField, l = [])) := by
  refine ⟨?_, ?_, ?_⟩
  · intro m
    constructor
    · intro h
      rw [eval, currView_none] at h
      cases hsi : structIntrospect st with
      | panic q => rw [hsi] at h; exact Res.noConfusion h
      | err q =>
        rw [hsi] at h
        cases h
        rfl
      | ok td =>
        obtain ⟨t, decls, fs, addr⟩ := td
        rw [hsi] at h
        dsimp only at h
        cases hef : evalFields ev (eval ev fuel) extra .nil none
            (typeName st) addr st decls.enum with
        | panic q => rw [hef] at h; exact Res.noConfusion h
        | err q => exact absurd hef (evalFields_ne_err ev _ extra .nil none _ addr _ st q)
        | ok out =>
          obtain ⟨a, b, c⟩ := out
          rw [hef] at h
          exact Res.noConfusion h
    · intro h
      rw [eval, currView_none, h]
  · intro m h
    rw [eval, currView_none, h]
  · intro stF errs tr h
    rw [eval, currView_none] at h
    cases hsi : structIntrospect st with
    | panic q => rw [hsi] at h; exact Res.noConfusion h
    | err q => rw [hsi] at h; exact Res.noConfusion h
    | ok td =>
      obtain ⟨t, decls, fs, addr⟩ := td
      rw [hsi] at h
      dsimp only at h
      cases hef : evalFields ev (eval ev fuel) extra .nil none
          (typeName st) addr st decls.enum with
      | panic q => rw [hef] at h; exact Res.noConfusion h
      | err q => exact absurd hef (evalFields_ne_err ev _ extra .nil none _ addr _ st q)
      | ok out =>
        obtain ⟨st', pf, tr'⟩ := out
        rw [hef] at h
        cases h
        exact ⟨t, decls, fs, addr, pf, rfl, hef, rfl, List.flatten_eq_nil_iff⟩

/-- C2 counterexample: a nil root argument — not a struct nor a reference to
one — does not produce a returned error: the call panics instead. -/
theorem c2_counterexample :
    Evaluator.Eval evBase 1 .nil .nil
      = .panic "reflect: call of reflect.Value.Type on zero Value"
    ∧ (Evaluator.Eval evBase 1 .nil .nil).errMsg = none :=
  ⟨rfl, rfl⟩

/-- C2 witness: a non-nil, non-struct root yields an immediate returned
error. -/
theorem c2_witness :
    eval evBase 1 (.intV 3) .nil none .nil
      = .err "structor: 3 must be a struct or a pointer to struct, actually: int" :=
  ((c2_only_root_error_is_fatal evBase 0 (.intV 3) .nil).1 _).mpr rfl

/-- The dispatch loop is invariant under permutation of the tag map's
iteration order, provided at most one entry carries a registered key. -/
theorem scanTags_perm (reg : List (String × Interp)) :
    ∀ {l1 l2 : List (String × String)}, l1.Perm l2 →
      (l1.filter (fun p => (List.lookup p.1 reg).isSome)).length ≤ 1 →
      scanTags reg l1 = scanTags reg l2 := by
  intro l1 l2 hperm
  induction hperm with
  | nil => intro _; rfl
  | cons x h ih =>
    intro hcount
    obtain ⟨xk, xt⟩ := x
    rw [scanTags, scanTags]
    cases hl : List.lookup xk reg with
    | some i => rfl
    | none =>
      apply ih
      simpa [List.filter_cons, hl] using hcount
  | swap x y l =>
    intro hcount
    obtain ⟨xk, xt⟩ := x
    obtain ⟨yk, yt⟩ := y
    cases hx : List.lookup xk reg with
    | some ix =>
      cases hy : List.lookup yk reg with
      | some iy =>
        exfalso
        have h2 : 2 ≤ (((yk, yt) :: (xk, xt) :: l).filter
            (fun p => (List.lookup p.1 reg).isSome)).length := by
          simp [List.filter_cons, hx, hy]
        omega
      | none => simp [scanTags, hx, hy]
    | none =>
      cases hy : List.lookup yk reg with
      | some iy => simp [scanTags, hx, hy]
      | none => simp [scanTags, hx, hy]
  | trans h12 h23 ih12 ih23 =>
    intro hcount
    refine (ih12 hcount).trans (ih23 ?_)
    have hlen :=
      (List.Perm.filter (fun p => (List.lookup p.1 reg).isSome) h12).length_eq
    omega

/-- C9 (amended): dispatch — and with it the whole per-field processing it
feeds — is independent of the tag map's iteration order provided at most one
scanned key matches a registered interpreter: two evaluators sharing the same
registry whose deterministic scanners produce the same tag map (as a set, in
permuted iteration orders) introspect a field identically, up to permutation
of the leftover tag map.  (With more than one matching key the selection is
order-dependent, see the counterexample.) -/
theorem c9_dispatch_order_independent (ev1 ev2 : Evaluator) (addr : Bool)
    (fname : String) (fty : Ty) (ftag : String) (fv : Value)
    (hreg : ev1.interpreters = ev2.interpreters)
    (hperm : (ev1.scanner ftag).1.Perm ((ev2.scanner ftag).1))
    (herr : (ev1.scanner ftag).2 = (ev2.scanner ftag).2)
    (hcount : ((ev1.scanner ftag).1.filter
        (fun p => (List.lookup p.1 ev1.interpreters).isSome)).length ≤ 1) :
    (fieldIntrospect ev1 addr (fname, fty, ftag) fv).2
      = (fieldIntrospect ev2 addr (fname, fty, ftag) fv).2
    ∧ (fieldIntrospect ev1 addr (fname, fty, ftag) fv).1.expr
      = (fieldIntrospect ev2 addr (fname, fty, ftag) fv).1.expr
    ∧ (fieldIntrospect ev1 addr (fname, fty, ftag) fv).1.interpreter
      = (fieldIntrospect ev2 addr (fname, fty, ftag) fv).1.interpreter
    ∧ (fieldIntrospect ev1 addr (fname, fty, ftag) fv).1.tags.Perm
        ((fieldIntrospect ev2 addr (fname, fty, ftag) fv).1.tags)
    ∧ (fieldIntrospect ev1 addr (fname, fty, ftag) fv).1.settable
      = (fieldIntrospect ev2 addr (fname, fty, ftag) fv).1.settable
    ∧ (fieldIntrospect ev1 addr (fname, fty, ftag) fv).1.value
      = (fieldIntrospect ev2 addr (fname, fty, ftag) fv).1.value := by
  have hst : scanTags ev1.interpreters (ev1.scanner ftag).1
      = scanTags ev1.interpreters ((ev2.scanner ftag).1) :=
    scanTags_perm ev1.interpreters hperm hcount
  cases hscan1 : (ev1.scanner ftag).2 with
  | some e =>
    have hscan2 : (ev2.scanner ftag).2 = some e := herr.symm.trans hscan1
    rw [fieldIntrospect_scanerr hscan1, fieldIntrospect_scanerr hscan2]
    exact ⟨rfl, rfl, rfl, hperm, rfl, rfl⟩
  | none =>
    have hscan2 : (ev2.scanner ftag).2 = none := herr.symm.trans hscan1
    cases hst2 : scanTags ev1.interpreters ((ev2.scanner ftag).1) with
    | some kti =>
      obtain ⟨k, tv, i⟩ := kti
      have hst1 : scanTags ev1.interpreters (ev1.scanner ftag).1
          = some (k, tv, i) := hst.trans hst2
      rw [fieldIntrospect_named hscan1 hst1,
        fieldIntrospect_named hscan2 (hreg ▸ hst2)]
      exact ⟨rfl, rfl, rfl, hperm.filter _, rfl, rfl⟩
    | none =>
      have hst1 : scanTags ev1.interpreters (ev1.scanner ftag).1 = none :=
        hst.trans hst2
      cases hwt : List.lookup WholeTag ev1.interpreters with
      | some i =>
        rw [fieldIntrospect_whole hscan1 hst1 hwt,
          fieldIntrospect_whole hscan2 (hreg ▸ hst2) (hreg ▸ hwt)]
        exact ⟨rfl, rfl, rfl, hperm.filter _, rfl, rfl⟩
      | none =>
        rw [fieldIntrospect_nomatch hscan1 hst1 hwt,
          fieldIntrospect_nomatch hscan2 (hreg ▸ hst2) (hreg ▸ hwt)]
        exact ⟨rfl, rfl, rfl, hperm, rfl, rfl⟩

/-- C9 counterexample: with two recognized tag keys on one field, two runs of
the same deterministic scanner and interpreters that differ only in the tag
map's iteration order produce different field values: Eval is not
deterministic as claimed. -/
theorem c9_counterexample :
    evP1.interpreters = evP2.interpreters
    ∧ (evP1.scanner "x").1.Perm ((evP2.scanner "x").1)
    ∧ (evP1.Eval 2 rootP9 .nil).okFieldStr [] 0 = some "A1"
    ∧ (evP2.Eval 2 rootP9 .nil).okFieldStr [] 0 = some "B2"
    ∧ ("A1" : String) ≠ "B2" :=
  ⟨rfl, by decide, rfl, rfl, by decide⟩

/-- C9 witness: order-independent dispatch with a single matching key. -/
theorem c9_witness :
    (fieldIntrospect evQ1 true ("A", .strT, "x") (.strV "")).1.expr
      = (fieldIntrospect evQ2 true ("A", .strT, "x") (.strV "")).1.expr
    ∧ (fieldIntrospect evQ1 true ("A", .strT, "x") (.strV "")).1.interpreter
      = (fieldIntrospect evQ2 true ("A", .strT, "x") (.strV "")).1.interpreter :=
  ⟨(c9_dispatch_order_independent evQ1 evQ2 true "A" .strT "x" (.strV "")
      rfl (by decide) rfl (by decide)).2.1,
   (c9_dispatch_order_independent evQ1 evQ2 true "A" .strT "x" (.strV "")
      rfl (by decide) rfl (by decide)).2.2.1⟩

/-- If the recursive walk preserves the root state, so does the
recursion-decision tail of a field. -/
theorem evalFieldTail_nm
    {recEval : Value → Value → Option Path → Value →
      Res (Value × List String × List Ctx)}
    (hrec : ∀ st ex p sc out, recEval st ex p sc = .ok out → out.1 = st)
    {st extra : Value} {path : Option Path} {addr : Bool} {i : Nat}
    {result : Value} {ctxs : List Ctx} {st' : Value} {errs : List String}
    {ctxs' : List Ctx}
    (h : evalFieldTail recEval st extra path addr i result ctxs
      = .done st' errs ctxs') : st' = st := by
  rw [evalFieldTail] at h
  cases hfs : fieldStruct addr (fieldValAt st (path.getD []) i) with
  | none => rw [hfs] at h; cases h; rfl
  | some sub =>
    rw [hfs] at h
    dsimp only at h
    cases hr : recEval st extra (some (path.getD [] ++ [i])) result with
    | panic q => rw [hr] at h; exact FOut.noConfusion h
    | err q => rw [hr] at h; cases h; rfl
    | ok out =>
      obtain ⟨a, b, c⟩ := out
      rw [hr] at h
      cases h
      exact hrec _ _ _ _ _ hr

/-- Under the NonMutating option a field's processing preserves the root
state, provided the recursive walk does. -/
theorem evalField_nm {ev : Evaluator} (hnm : ev.options.nonMutating = true)
    {recEval : Value → Value → Option Path → Value →
      Res (Value × List String × List Ctx)}
    (hrec : ∀ st ex p sc out, recEval st ex p sc = .ok out → out.1 = st)
    {st extra subctx : Value} {path : Option Path} {cn : String} {addr : Bool}
    {decl : String × Ty × String} {i : Nat} {st' : Value} {errs : List String}
    {ctxs' : List Ctx}
    (h : evalField ev recEval st extra subctx path cn addr decl i
      = .done st' errs ctxs') : st' = st := by
  rw [evalField] at h
  rcases hfi : fieldIntrospect ev addr decl (fieldValAt st (path.getD []) i)
    with ⟨f, ferr⟩
  rw [hfi] at h
  dsimp only at h
  cases ferr with
  | some e => cases h; rfl
  | none =>
    cases hg : (f.expr != "" || ev.options.evalEmptyTags) with
    | false =>
      rw [hg, if_neg Bool.false_ne_true] at h
      exact evalFieldTail_nm hrec h
    | true =>
      rw [hg, if_pos (Eq.refl true)] at h
      cases hi : f.interpreter with
      | none => rw [hi] at h; exact FOut.noConfusion h
      | some intr =>
        rw [hi] at h
        dsimp only at h
        cases hx : intr f.expr
            { Name := f.name, LongName := cn ++ "." ++ f.name, Tags := f.tags,
              Struct := st, Extra := extra, Sub := subctx,
              Val := match f.value with
                     | some v => interfaceOf v
                     | none => .nil } with
        | error e => rw [hx] at h; cases h; rfl
        | ok result =>
          rw [hx] at h
          dsimp only at h
          rw [if_neg (fun hc => hc.1 hnm)] at h
          dsimp only at h
          exact evalFieldTail_nm hrec h

/-- Under the NonMutating option the field loop preserves the root state,
provided the recursive walk does. -/
theorem evalFields_nm {ev : Evaluator} (hnm : ev.options.nonMutating = true)
    {recEval : Value → Value → Option Path → Value →
      Res (Value × List String × List Ctx)}
    (hrec : ∀ st ex p sc out, recEval st ex p sc = .ok out → out.1 = st)
    {extra subctx : Value} {path : Option Path} {cn : String} {addr : Bool} :
    ∀ {l : List (Nat × (String × Ty × String))} {st : Value}
      {out : Value × List (List String) × List Ctx},
      evalFields ev recEval extra subctx path cn addr st l = .ok out →
      out.1 = st := by
  intro l
  induction l with
  | nil =>
    intro st out h
    cases h
    rfl
  | cons p rest ih =>
    intro st out h
    obtain ⟨i, decl⟩ := p
    rw [evalFields] at h
    cases hf : evalField ev recEval st extra subctx path cn addr decl i with
    | panic q => rw [hf] at h; exact Res.noConfusion h
    | done st1 errs ctxs =>
      rw [hf] at h
      dsimp only at h
      cases hr : evalFields ev recEval extra subctx path cn addr st1 rest with
      | panic q => rw [hr] at h; exact Res.noConfusion h
      | err q => rw [hr] at h; exact Res.noConfusion h
      | ok out2 =>
        obtain ⟨st2, pf, tr⟩ := out2
        rw [hr] at h
        cases h
        have h1 : st1 = st := evalField_nm hnm hrec hf
        have h2 : st2 = st1 := ih hr
        rw [h2, h1]

/-- C7: with the NonMutating option, a successful Eval leaves the root value
— hence every field at every nesting depth, including nil pointer fields —
exactly as it was before the call, even though interpreters were invoked. -/
theorem c7_nonmutating_preserves_fields (ev : Evaluator)
    (hnm : ev.options.nonMutating = true) :
    ∀ (fuel : Nat) (st extra : Value) (path : Option Path) (subctx : Value)
      (out : Value × List String × List Ctx),
      eval ev fuel st extra path subctx = .ok out → out.1 = st := by
  intro fuel
  induction fuel with
  | zero =>
    intro st extra path subctx out h
    cases h
    rfl
  | succ fuel ih =>
    intro st extra path subctx out h
    rw [eval] at h
    cases hsi : structIntrospect (currView st path) with
    | panic q => rw [hsi] at h; exact Res.noConfusion h
    | err q => rw [hsi] at h; exact Res.noConfusion h
    | ok td =>
      obtain ⟨t, decls, fs, addr⟩ := td
      rw [hsi] at h
      dsimp only at h
      have hrec : ∀ st ex p sc out', eval ev fuel st ex p sc = .ok out' →
          out'.1 = st := fun st ex p sc out' hh => ih st ex p sc out' hh
      cases hef : evalFields ev (eval ev fuel) extra subctx path
          (typeName (currView st path)) addr st decls.enum with
      | panic q => rw [hef] at h; exact Res.noConfusion h
      | err q => rw [hef] at h; exact Res.noConfusion h
      | ok out2 =>
        obtain ⟨st2, pf, tr⟩ := out2
        rw [hef] at h
        cases h
        exact evalFields_nm hnm hrec hef

/-- C7 witness: the non-mutating fixture run, with both interpreter
invocations visible in the trace. -/
theorem c7_witness :
    evNM.options.nonMutating = true
    ∧ (Evaluator.Eval evNM 2 rootNM Value.nil).okSt = some rootNM
    ∧ (Evaluator.Eval evNM 2 rootNM Value.nil).okCtxs
        = some [ctxNM1, ctxNM2] := by
  refine ⟨rfl, ?_, rfl⟩
  have hrun : eval evNM 2 rootNM Value.nil none Value.nil
      = .ok (rootNM, [], [ctxNM1, ctxNM2]) := rfl
  have h1 := c7_nonmutating_preserves_fields evNM rfl 2 rootNM Value.nil none
    Value.nil (rootNM, [], [ctxNM1, ctxNM2]) hrun
  show (eval evNM 2 rootNM Value.nil none Value.nil).okSt = some rootNM
  rw [hrun]
  exact congrArg some h1

/-- If the recursive walk never raises the nil-interpreter panic, neither
does the recursion tail of a field. -/
theorem evalFieldTail_no_np
    {recEval : Value → Value → Option Path → Value →
      Res (Value × List String × List Ctx)}
    (hrec : ∀ a b c d, recEval a b c d ≠ Res.panic nilInterpPanic)
    (st extra : Value) (path : Option Path) (addr : Bool) (i : Nat)
    (result : Value) (ctxs : List Ctx) :
    evalFieldTail recEval st extra path addr i result ctxs
      ≠ .panic nilInterpPanic := by
  rw [evalFieldTail]
  cases hfs : fieldStruct addr (fieldValAt st (path.getD []) i) with
  | none => exact fun hh => FOut.noConfusion hh
  | some sub =>
    dsimp only
    cases hr : recEval st extra (some (path.getD [] ++ [i])) result with
    | panic q =>
      intro hh
      injection hh with hq
      subst hq
      exact hrec _ _ _ _ hr
    | err q => exact fun hh => FOut.noConfusion hh
    | ok out =>
      obtain ⟨a, b, c⟩ := out
      exact fun hh => FOut.noConfusion hh

/-- With EvalEmptyTags off, a field's processing never raises the
nil-interpreter panic (assuming the recursive walk does not). -/
theorem evalField_no_np {ev : Evaluator}
    (hEET : ev.options.evalEmptyTags = false)
    {recEval : Value → Value → Option Path → Value →
      Res (Value × List String × List Ctx)}
    (hrec : ∀ a b c d, recEval a b c d ≠ Res.panic nilInterpPanic)
    (st extra subctx : Value) (path : Option Path) (cn : String) (addr : Bool)
    (decl : String × Ty × String) (i : Nat) :
    evalField ev recEval st extra subctx path cn addr decl i
      ≠ .panic nilInterpPanic := by
  rw [evalField]
  rcases hfi : fieldIntrospect ev addr decl (fieldValAt st (path.getD []) i)
    with ⟨f, ferr⟩
  dsimp only
  cases ferr with
  | some e => exact fun hh => FOut.noConfusion hh
  | none =>
    cases hg : (f.expr != "" || ev.options.evalEmptyTags) with
    | false =>
      rw [if_neg Bool.false_ne_true]
      exact evalFieldTail_no_np hrec st extra path addr i .nil []
    | true =>
      rw [if_pos (Eq.refl true)]
      cases hi : f.interpreter with
      | none =>
        exfalso
        have hnone : (fieldIntrospect ev addr decl
            (fieldValAt st (path.getD []) i)).1.interpreter = none := by
          rw [hfi]; exact hi
        have hexpr := fieldIntrospect_none_expr hnone
        rw [hfi] at hexpr
        rw [hexpr, hEET] at hg
        simp at hg
      | some intr =>
        dsimp only
        cases hx : intr f.expr
            { Name := f.name, LongName := cn ++ "." ++ f.name, Tags := f.tags,
              Struct := st, Extra := extra, Sub := subctx,
              Val := match f.value with
                     | some v => interfaceOf v
                     | none => .nil } with
        | error e => exact fun hh => FOut.noConfusion hh
        | ok result =>
          dsimp only
          cases hrs : (if ¬ ev.options.nonMutating ∧ f.settable
              then reflectSet f.value f.typ result
              else Except.ok none) with
          | error e => exact fun hh => FOut.noConfusion hh
          | ok slotNew =>
            dsimp only
            cases slotNew with
            | some ns => exact evalFieldTail_no_np hrec _ extra path addr i result _
            | none => exact evalFieldTail_no_np hrec st extra path addr i result _

/-- With EvalEmptyTags off, the field loop never raises the nil-interpreter
panic (assuming the recursive walk does not). -/
theorem evalFields_no_np {ev : Evaluator}
    (hEET : ev.options.evalEmptyTags = false)
    {recEval : Value → Value → Option Path → Value →
      Res (Value × List String × List Ctx)}
    (hrec : ∀ a b c d, recEval a b c d ≠ Res.panic nilInterpPanic)
    (extra subctx : Value) (path : Option Path) (cn : String) (addr : Bool) :
    ∀ (l : List (Nat × (String × Ty × String))) (st : Value),
      evalFields ev recEval extra subctx path cn addr st l
        ≠ .panic nilInterpPanic := by
  intro l
  induction l with
  | nil => intro st hh; exact Res.noConfusion hh
  | cons p rest ih =>
    intro st
    obtain ⟨i, decl⟩ := p
    rw [evalFields]
    cases hf : evalField ev recEval st extra subctx path cn addr decl i with
    | panic q =>
      intro hh
      injection hh with hq
      subst hq
      exact evalField_no_np hEET hrec st extra subctx path cn addr decl i hf
    | done st1 errs ctxs =>
      dsimp only
      cases hr : evalFields ev recEval extra subctx path cn addr st1 rest with
      | panic q =>
        intro hh
        injection hh with hq
        subst hq
        exact ih st1 hr
      | err q => exact fun hh => Res.noConfusion hh
      | ok out =>
        obtain ⟨a, b, c⟩ := out
        exact fun hh => Res.noConfusion hh

/-- The only panic of struct introspection is the zero-Value Type panic. -/
theorem structIntrospect_panic_msg {s : Value} {q : String}
    (h : structIntrospect s = .panic q) :
    q = "reflect: call of reflect.Value.Type on zero Value" := by
  rw [structIntrospect] at h
  cases hio : interfaceOf s <;> rw [hio] at h <;> (try dsimp only at h)
  case nil => injection h with h1; exact h1.symm
  case ptrNil t => injection h with h1; exact h1.symm
  case intV n => exact Res.noConfusion h
  case strV a => exact Res.noConfusion h
  case boolV b => exact Res.noConfusion h
  case ifaceV o => exact Res.noConfusion h
  case structV t fs => cases t <;> exact Res.noConfusion h
  case ptrV e =>
    cases e
    case structV t fs => cases t <;> exact Res.noConfusion h
    all_goals exact Res.noConfusion h

/-- C10: with EvalEmptyTags enabled, a field whose tag map matches no
registered interpreter and with no WholeTag entry makes the engine call
Execute on a nil interpreter: the resulting panic is not recovered — it
propagates out of the field loop (and hence out of Eval) instead of being
recorded as a per-field error.  Conversely, with EvalEmptyTags off, the
engine never raises that panic: Execute is only ever called on a dispatched
(non-nil) interpreter. -/
theorem c10_empty_tags_nil_interpreter (ev : Evaluator) :
    (∀ recEval st extra subctx path cn addr decl i,
      ev.options.evalEmptyTags = true →
      (fieldIntrospect ev addr decl (fieldValAt st (path.getD []) i)).2
        = none →
      (fieldIntrospect ev addr decl
        (fieldValAt st (path.getD []) i)).1.interpreter = none →
      evalField ev recEval st extra subctx path cn addr decl i
        = .panic nilInterpPanic
      ∧ ∀ rest, evalFields ev recEval extra subctx path cn addr st
          ((i, decl) :: rest) = .panic nilInterpPanic)
    ∧ (ev.options.evalEmptyTags = false →
      ∀ fuel st extra path subctx,
        eval ev fuel st extra path subctx ≠ .panic nilInterpPanic) := by
  constructor
  · intro recEval st extra subctx path cn addr decl i hEET hscan hintr
    rcases hfi : fieldIntrospect ev addr decl (fieldValAt st (path.getD []) i)
      with ⟨f, ferr⟩
    simp only [hfi] at hscan hintr
    subst hscan
    have hA : evalField ev recEval st extra subctx path cn addr decl i
        = .panic nilInterpPanic := by
      rw [evalField, hfi]
      dsimp only
      rw [hEET, Bool.or_true, if_pos (Eq.refl true), hintr]
      rfl
    refine ⟨hA, fun rest => ?_⟩
    rw [evalFields, hA]
  · intro hEET fuel
    induction fuel with
    | zero => intro st extra path subctx hh; exact Res.noConfusion hh
    | succ fuel ih =>
      intro st extra path subctx
      rw [eval]
      cases hsi : structIntrospect (currView st path) with
      | panic q =>
        intro hh
        injection hh with hq
        subst hq
        have hmsg := structIntrospect_panic_msg hsi
        exact absurd hmsg (by decide)
      | err q => exact fun hh => Res.noConfusion hh
      | ok td =>
        obtain ⟨t, decls, fs, addr⟩ := td
        dsimp only
        cases hef : evalFields ev (eval ev fuel) extra subctx path
            (typeName (currView st path)) addr st decls.enum with
        | panic q =>
          intro hh
          injection hh with hq
          subst hq
          exact evalFields_no_np hEET (fun a b c d => ih a b c d) extra subctx
            path (typeName (currView st path)) addr decls.enum st hef
        | err q => exact fun hh => Res.noConfusion hh
        | ok out =>
          obtain ⟨a, b, c⟩ := out
          exact fun hh => Res.noConfusion hh

/-- C10 witness: the EvalEmptyTags fixture panics on its untagged field, and
a fixture with the option off never raises the nil-interpreter panic. -/
theorem c10_witness :
    evEET.options.evalEmptyTags = true
    ∧ evalField evEET (eval evEET 0) (.ptrV (.structV tyP10 [.strV ""])) .nil
        .nil none "*p" true ("A", .strT, "") 0 = .panic nilInterpPanic
    ∧ eval evBase 2 rootC3 (.strV "EX") none .nil ≠ .panic nilInterpPanic :=
  ⟨rfl,
   ((c10_empty_tags_nil_interpreter evEET).1 (eval evEET 0)
      (.ptrV (.structV tyP10 [.strV ""])) .nil .nil none "*p" true
      ("A", .strT, "") 0 rfl rfl rfl).1,
   (c10_empty_tags_nil_interpreter evBase).2 rfl 2 rootC3 (.strV "EX") none .nil⟩

example :
    evEET.Eval 2 (.ptrV (.structV tyP10 [.strV ""])) .nil
      = .panic nilInterpPanic := rfl

/-- Under the induction invariant for the recursive walk, the
recursion-decision tail of a field preserves the context invariants. -/
theorem evalFieldTail_ctxs {ev : Evaluator}
    {recEval : Value → Value → Option Path → Value →
      Res (Value × List String × List Ctx)}
    (hrec : RecOK ev recEval)
    {s0 st extra : Value} {path : Option Path} {addr : Bool} {i : Nat}
    {result : Value} {ctxs : List Ctx} {subctx : Value}
    (hst : RootEvolved s0 st)
    (hctxs : ∀ c ∈ ctxs, c.Extra = extra ∧ RootEvolved s0 c.Struct
      ∧ c.Sub = subctx)
    (hres : result = .nil ∨ ∃ c' ∈ ctxs, ParentResult ev c' result)
    {st' : Value} {errs : List String} {ctxs' : List Ctx}
    (h : evalFieldTail recEval st extra path addr i result ctxs
      = .done st' errs ctxs') :
    RootEvolved s0 st' ∧ ∀ c ∈ ctxs', c.Extra = extra
      ∧ RootEvolved s0 c.Struct ∧ SubLink ev ctxs' subctx c := by
  rw [evalFieldTail] at h
  cases hfs : fieldStruct addr (fieldValAt st (path.getD []) i) with
  | none =>
    rw [hfs] at h
    cases h
    exact ⟨hst, fun c hc =>
      ⟨(hctxs c hc).1, (hctxs c hc).2.1, Or.inl (hctxs c hc).2.2⟩⟩
  | some sub =>
    rw [hfs] at h
    dsimp only at h
    cases hr : recEval st extra (some (path.getD [] ++ [i])) result with
    | panic q => rw [hr] at h; exact FOut.noConfusion h
    | err q =>
      rw [hr] at h
      cases h
      exact ⟨hst, fun c hc =>
        ⟨(hctxs c hc).1, (hctxs c hc).2.1, Or.inl (hctxs c hc).2.2⟩⟩
    | ok out =>
      obtain ⟨st2, errs2, tr2⟩ := out
      rw [hr] at h
      cases h
      obtain ⟨hev2, hall2⟩ := hrec st extra _ result _ _ _ hr
      refine ⟨hst.trans hev2, fun c hc => ?_⟩
      rcases List.mem_append.mp hc with hcl | hcr
      · exact ⟨(hctxs c hcl).1, (hctxs c hcl).2.1, Or.inl (hctxs c hcl).2.2⟩
      · obtain ⟨hex, hevc, hsl⟩ := hall2 c hcr
        refine ⟨hex, hst.trans hevc, ?_⟩
        rcases hsl with hs1 | hs2 | ⟨c', hc', hpr⟩
        · rcases hres with hnil | ⟨c0, hc0, hpr0⟩
          · exact Or.inr (Or.inl (hs1.trans hnil))
          · exact Or.inr (Or.inr ⟨c0, List.mem_append_left _ hc0,
              by rw [hs1]; exact hpr0⟩)
        · exact Or.inr (Or.inl hs2)
        · exact Or.inr (Or.inr ⟨c', List.mem_append_right _ hc', hpr⟩)

/-- Under the induction invariant for the recursive walk, a field's
processing preserves the context invariants. -/
theorem evalField_ctxs {ev : Evaluator}
    {recEval : Value → Value → Option Path → Value →
      Res (Value × List String × List Ctx)}
    (hrec : RecOK ev recEval)
    {st extra subctx : Value} {path : Option Path} {cn : String} {addr : Bool}
    {decl : String × Ty × String} {i : Nat} {st' : Value}
    {errs : List String} {ctxs' : List Ctx}
    (h : evalField ev recEval st extra subctx path cn addr decl i
      = .done st' errs ctxs') :
    RootEvolved st st' ∧ ∀ c ∈ ctxs', c.Extra = extra
      ∧ RootEvolved st c.Struct ∧ SubLink ev ctxs' subctx c := by
  rw [evalField] at h
  rcases hfi : fieldIntrospect ev addr decl (fieldValAt st (path.getD []) i)
    with ⟨f, ferr⟩
  rw [hfi] at h
  dsimp only at h
  cases ferr with
  | some e =>
    cases h
    exact ⟨.refl, by simp⟩
  | none =>
    cases hg : (f.expr != "" || ev.options.evalEmptyTags) with
    | false =>
      rw [hg, if_neg Bool.false_ne_true] at h
      exact evalFieldTail_ctxs hrec .refl (by simp) (Or.inl rfl) h
    | true =>
      rw [hg, if_pos (Eq.refl true)] at h
      cases hi : f.interpreter with
      | none => rw [hi] at h; exact FOut.noConfusion h
      | some intr =>
        rw [hi] at h
        dsimp only at h
        obtain ⟨k, hk⟩ : ∃ k, List.lookup k ev.interpreters = some intr :=
          fieldIntrospect_registered (by rw [hfi]; exact hi)
        cases hx : intr f.expr
            { Name := f.name, LongName := cn ++ "." ++ f.name, Tags := f.tags,
              Struct := st, Extra := extra, Sub := subctx,
              Val := match f.value with
                     | some v => interfaceOf v
                     | none => .nil } with
        | error e =>
          rw [hx] at h
          cases h
          refine ⟨.refl, fun c hc => ?_⟩
          rw [List.mem_singleton] at hc
          subst hc
          exact ⟨rfl, .refl, Or.inl rfl⟩
        | ok result =>
          rw [hx] at h
          dsimp only at h
          cases hrs : (if ¬ ev.options.nonMutating ∧ f.settable
              then reflectSet f.value f.typ result
              else Except.ok none) with
          | error e =>
            rw [hrs] at h
            cases h
            refine ⟨.refl, fun c hc => ?_⟩
            rw [List.mem_singleton] at hc
            subst hc
            exact ⟨rfl, .refl, Or.inl rfl⟩
          | ok slotNew =>
            rw [hrs] at h
            dsimp only at h
            cases slotNew with
            | some ns =>
              refine evalFieldTail_ctxs hrec
                (RootEvolved.step st (path.getD []) i ns .refl)
                (fun c hc => ?_)
                (Or.inr ⟨_, List.mem_singleton_self _, st, extra, subctx,
                  path, cn, addr, decl, i, f, intr, hfi, hi, ⟨k, hk⟩, rfl,
                  hx⟩) h
              rw [List.mem_singleton] at hc
              subst hc
              exact ⟨rfl, .refl, rfl⟩
            | none =>
              refine evalFieldTail_ctxs hrec .refl
                (fun c hc => ?_)
                (Or.inr ⟨_, List.mem_singleton_self _, st, extra, subctx,
                  path, cn, addr, decl, i, f, intr, hfi, hi, ⟨k, hk⟩, rfl,
                  hx⟩) h
              rw [List.mem_singleton] at hc
              subst hc
              exact ⟨rfl, .refl, rfl⟩

/-- Under the induction invariant for the recursive walk, the field loop
preserves the context invariants. -/
theorem evalFields_ctxs {ev : Evaluator}
    {recEval : Value → Value → Option Path → Value →
      Res (Value × List String × List Ctx)}
    (hrec : RecOK ev recEval)
    {extra subctx : Value} {path : Option Path} {cn : String} {addr : Bool} :
    ∀ {l : List (Nat × (String × Ty × String))} {st st' : Value}
      {pf : List (List String)} {tr : List Ctx},
      evalFields ev recEval extra subctx path cn addr st l = .ok (st', pf, tr) →
      RootEvolved st st' ∧ ∀ c ∈ tr, c.Extra = extra
        ∧ RootEvolved st c.Struct ∧ SubLink ev tr subctx c := by
  intro l
  induction l with
  | nil =>
    intro st st' pf tr h
    cases h
    exact ⟨.refl, by simp⟩
  | cons p rest ih =>
    intro st st' pf tr h
    obtain ⟨i, decl⟩ := p
    rw [evalFields] at h
    cases hf : evalField ev recEval st extra subctx path cn addr decl i with
    | panic q => rw [hf] at h; exact Res.noConfusion h
    | done st1 errs ctxs =>
      rw [hf] at h
      dsimp only at h
      cases hr : evalFields ev recEval extra subctx path cn addr st1 rest with
      | panic q => rw [hr] at h; exact Res.noConfusion h
      | err q => rw [hr] at h; exact Res.noConfusion h
      | ok out2 =>
        obtain ⟨st2, pf2, tr2⟩ := out2
        rw [hr] at h
        cases h
        obtain ⟨hev1, hall1⟩ := evalField_ctxs hrec hf
        obtain ⟨hev2, hall2⟩ := ih hr
        refine ⟨hev1.trans hev2, fun c hc => ?_⟩
        rcases List.mem_append.mp hc with h1 | h2
        · obtain ⟨hx, hv, hs⟩ := hall1 c h1
          exact ⟨hx, hv, hs.mono (fun x hx2 => List.mem_append_left _ hx2)⟩
        · obtain ⟨hx, hv, hs⟩ := hall2 c h2
          exact ⟨hx, hev1.trans hv, hs.mono
            (fun x hx2 => List.mem_append_right _ hx2)⟩

/-- C3: every expression context built anywhere in a successful walk carries
the threaded extra value unchanged, a Struct slot that is the root state
(possibly evolved by engine field assignments — never a detached sub-record),
and a Sub slot that is either the propagated value the level was entered
with (nil at the outermost call), or nil, or a parent field's interpreter
result: the result obtained by running the interpreter dispatched for that
parent field, with that field's dispatched expression, on that field's own
assembled context, which itself belongs to the trace (`ParentResult`); the
final state is likewise an evolution of the root. -/
theorem c3_context_invariants (ev : Evaluator) :
    ∀ (fuel : Nat) (st extra : Value) (path : Option Path) (subctx : Value)
      (stF : Value) (errs : List String) (tr : List Ctx),
      eval ev fuel st extra path subctx = .ok (stF, errs, tr) →
      RootEvolved st stF ∧
        ∀ c ∈ tr, c.Extra = extra ∧ RootEvolved st c.Struct ∧
          SubLink ev tr subctx c := by
  intro fuel
  induction fuel with
  | zero =>
    intro st extra path subctx stF errs tr h
    cases h
    exact ⟨.refl, by simp⟩
  | succ fuel ih =>
    intro st extra path subctx stF errs tr h
    rw [eval] at h
    cases hsi : structIntrospect (currView st path) with
    | panic q => rw [hsi] at h; exact Res.noConfusion h
    | err q => rw [hsi] at h; exact Res.noConfusion h
    | ok td =>
      obtain ⟨t, decls, fs, addr⟩ := td
      rw [hsi] at h
      dsimp only at h
      have hrec : RecOK ev (eval ev fuel) :=
        fun a b c d e g j hh => ih a b c d e g j hh
      cases hef : evalFields ev (eval ev fuel) extra subctx path
          (typeName (currView st path)) addr st decls.enum with
      | panic q => rw [hef] at h; exact Res.noConfusion h
      | err q => rw [hef] at h; exact Res.noConfusion h
      | ok out =>
        obtain ⟨st2, pf, tr2⟩ := out
        rw [hef] at h
        cases h
        exact evalFields_ctxs hrec hef

/-- C3 witness: a concrete two-level run in which the outer field F seeds
the nested record: the nested context's Sub slot is non-nil and equals the
outer field's interpreter result, the parent linkage holds concretely, and
extra and the root are threaded as claimed. -/
theorem c3_witness :
    RootEvolved rootSub stFSub
    ∧ ctxSub1.Extra = Value.nil
    ∧ ctxSub1.Sub = Value.strV "SEEDED"
    ∧ SubLink evSub [ctxSub0, ctxSub1] Value.nil ctxSub1
    ∧ ParentResult evSub ctxSub0 ctxSub1.Sub := by
  have h := c3_context_invariants evSub 3 rootSub Value.nil none Value.nil
    stFSub [] [ctxSub0, ctxSub1] rfl
  refine ⟨h.1, (h.2 ctxSub1 (by simp)).1, rfl,
    (h.2 ctxSub1 (by simp)).2.2, ?_⟩
  exact ⟨rootSub, .nil, .nil, none, "*obj", true, ("F", .ptrT tyInS, "seed"),
    0, _, seedInterp, rfl, rfl, ⟨"seed", rfl⟩, rfl, rfl⟩

/-- C6 counterexample: the interpreter for the outer field K of outer2 fails;
the walk does not descend into the nested innerSub record: the final state is
unchanged (no "sub" assignment to F1), the only recorded error is the outer
"boom", and the trace contains exactly one context (the outer field's), none
for F1. -/
theorem c6_counterexample :
    (evBad.Eval 9 rootO2 .nil).okSt = some rootO2
    ∧ (evBad.Eval 9 rootO2 .nil).okErrs = some ["boom"]
    ∧ ((evBad.Eval 9 rootO2 .nil).okCtxs).map List.length = some 1
    ∧ (evBad.Eval 9 rootO2 .nil).okFieldStr [0] 0 = some "" :=
  ⟨rfl, rfl, rfl, rfl⟩

/-- C6 witness: the amended skip-recursion behaviour on the outer2 fixture,
with two different recursive walks. -/
theorem c6_witness :
    evalField evBad (eval evBad 0) rootO2 .nil .nil none "*outer2" true
        ("K", tyInS, "bad") 0
      = evalField evBad (eval evBad 5) rootO2 .nil .nil none "*outer2" true
        ("K", tyInS, "bad") 0 :=
  (c6_failure_skips_recursion evBad (eval evBad 0) (eval evBad 5) rootO2
    .nil .nil none "*outer2" true ("K", tyInS, "bad") 0 _ failInterp
    rfl rfl rfl).1 (fun _ _ => ⟨"boom", rfl⟩)

end Structor
